import Mathlib

set_option maxRecDepth 100000

/-!
Verification development for the scraper message store
(`rust/agents/scraper/src/db/message.rs`).

The relational store is shallowly embedded as a pure value: each table is a
list of rows together with the next auto-increment row id.  Stateful database
operations become functions from a `Db` to a `Db` (plus a result).  Machine
integers are modelled as `Nat`/`Int` with the bit-casts of the source made
explicit (`u32 as i32` / `i32 as u32`).  Fallible operations return
`Except String` (query/decode errors) or `Option` (the `debug_assert!` on an
empty batch is modelled as `none`).

The u32 query parameters that the source compares against i32 columns are
bridged with the same bit-cast used on the write path, so reads and writes
cross the u32/i32 boundary consistently.
-/

/-! ## Byte-string and integer conversions -/

/-- Big-endian base-256 digits of `a`, exactly `w` bytes (most significant first). -/
def natToBytesBE : Nat → Nat → List Nat
  | 0, _ => []
  | w + 1, a => natToBytesBE w (a / 256) ++ [a % 256]

/-- Interpret a byte list as a big-endian natural number. -/
def bytesToNat (l : List Nat) : Nat := l.foldl (fun acc b => acc * 256 + b) 0

/-- Modelled from the spec: `address_to_bytes` from the scraper's conversion
module (not under `src/`) — "address values ↔ fixed-width byte encodings".
An `H256` address (a 256-bit value, here a `Nat`) becomes its fixed-width
32-byte big-endian encoding. -/
def address_to_bytes (a : Nat) : List Nat := natToBytesBE 32 a

/-- Modelled from the spec: `h256_to_bytes` from the scraper's conversion
module (not under `src/`) — a 256-bit identifier becomes its fixed-width
32-byte big-endian encoding. -/
def h256_to_bytes (a : Nat) : List Nat := natToBytesBE 32 a

/-- Modelled from the spec: `bytes_to_address` from the scraper's conversion
module (not under `src/`) — reinterpret a stored byte string as an address,
failing with a decode error "if a stored byte string cannot be interpreted as
a valid address width for reconstruction". -/
def bytes_to_address (l : List Nat) : Except String Nat :=
  if l.length = 32 then Except.ok (bytesToNat l) else Except.error "invalid address width"

/-- The Rust bit-cast `u32 as i32` (two's complement reinterpretation). -/
def toI32 (n : Nat) : Int := if n < 2 ^ 31 then (n : Int) else (n : Int) - 2 ^ 32

/-- The Rust bit-cast `i32 as u32` (two's complement reinterpretation). -/
def toU32 (i : Int) : Nat := (i % 2 ^ 32).toNat

/-! ## Protocol message and batch-input types -/

/-- `HyperlaneMessage` from `hyperlane-core` (field widths: `version: u8`,
`nonce/origin/destination: u32`, `sender/recipient: H256`). -/
structure HyperlaneMessage where
  version : Nat
  nonce : Nat
  origin : Nat
  sender : Nat
  destination : Nat
  recipient : Nat
  body : List Nat
  deriving Repr, DecidableEq

/-- Modelled from the spec: `HyperlaneMessage::id()` (not under `src/`) — the
"content identifier of the message (derived)".  The real code hashes the
canonical byte encoding `version ‖ nonce ‖ origin ‖ sender ‖ destination ‖
recipient ‖ body`; the model uses the (injective) encoding itself in place of
the hash. -/
def msgIdOf (m : HyperlaneMessage) : Nat :=
  bytesToNat (natToBytesBE 1 m.version ++ natToBytesBE 4 m.nonce ++ natToBytesBE 4 m.origin ++
    natToBytesBE 32 m.sender ++ natToBytesBE 4 m.destination ++ natToBytesBE 32 m.recipient ++
    m.body)

/-- `StorableMessage`: one dispatched-message event plus the database id of
the transaction the message was sent in. -/
structure StorableMessage where
  msg : HyperlaneMessage
  txn_id : Int
  deriving Repr, DecidableEq

/-- `StorableDelivery`: one delivery event (`message_id : H256`) plus the
database id of the transaction the delivery occurred in. -/
structure StorableDelivery where
  message_id : Nat
  txn_id : Int
  deriving Repr, DecidableEq

/-! ## Stored rows and the database state -/

/-- One row of the `message` table (generated entity): column types follow the
schema (`id: i64`, `origin/destination/nonce: i32`, byte-string columns,
optional `msg_body`). -/
structure MessageRow where
  id : Int
  timeCreated : Nat
  msg_id : List Nat
  origin : Int
  destination : Int
  nonce : Int
  sender : List Nat
  recipient : List Nat
  msg_body : Option (List Nat)
  origin_mailbox : List Nat
  origin_tx_id : Int
  deriving Repr, DecidableEq

/-- One row of the `delivered_message` table. -/
structure DeliveredRow where
  id : Int
  timeCreated : Nat
  msg_id : List Nat
  domain : Int
  destination_mailbox : List Nat
  destination_tx_id : Int
  deriving Repr, DecidableEq

/-- The relational store: both tables plus their auto-increment counters. -/
structure Db where
  messages : List MessageRow
  deliveries : List DeliveredRow
  nextMessageId : Int
  nextDeliveryId : Int
  deriving Repr, DecidableEq

/-- A fresh store: empty tables, auto-increment sequences starting at 1. -/
def emptyDb : Db := { messages := [], deliveries := [], nextMessageId := 1, nextDeliveryId := 1 }

/-- Well-formedness of the store-assigned ids: every row id is below the
table's auto-increment counter, and the counters are positive. -/
def WfDb (db : Db) : Prop :=
  (∀ r ∈ db.messages, r.id < db.nextMessageId) ∧
  (∀ r ∈ db.deliveries, r.id < db.nextDeliveryId) ∧
  0 < db.nextMessageId ∧ 0 < db.nextDeliveryId

instance (db : Db) : Decidable (WfDb db) := by
  unfold WfDb
  exact inferInstance

/-- Maximum of a list of integers, `none` on the empty list (SQL `MAX`). -/
def maxInt? (l : List Int) : Option Int :=
  match l with
  | [] => none
  | a :: as => some (as.foldl max a)

/-! ## Filters (the `.filter(...)` chains of the source) -/

/-- Filter `Origin.eq(domain) ∧ OriginMailbox.eq(mailbox)` on the `message`
table. -/
def msgScope (mb : List Nat) (d : Int) (r : MessageRow) : Bool :=
  r.origin == d && r.origin_mailbox == mb

/-- Filter `Origin.eq(domain) ∧ OriginMailbox.eq(mailbox) ∧ Nonce.eq(nonce)`. -/
def msgKeyFilter (mb : List Nat) (d n : Int) (r : MessageRow) : Bool :=
  r.origin == d && r.origin_mailbox == mb && r.nonce == n

/-- The upsert conflict key of the `message` table:
`(origin_mailbox, origin, nonce)`. -/
def msgConflict (mb : List Nat) (o n : Int) (r : MessageRow) : Bool :=
  r.origin_mailbox == mb && r.origin == o && r.nonce == n

/-- Filter `Domain.eq(domain) ∧ DestinationMailbox.eq(mailbox)` on the
`delivered_message` table. -/
def delScope (mb : List Nat) (d : Int) (r : DeliveredRow) : Bool :=
  r.domain == d && r.destination_mailbox == mb

/-- The upsert conflict key of the `delivered_message` table: `msg_id` alone. -/
def delConflict (mid : List Nat) (r : DeliveredRow) : Bool :=
  r.msg_id == mid

/-! ## Read-side operations -/

/-- `ScraperDb::last_message_nonce`: `MAX(nonce)` (an i32 maximum) over the
rows scoped to `(origin_domain, origin_mailbox)`, bit-cast back with
`as u32`; `none` when no row matches. -/
def last_message_nonce (db : Db) (origin_domain : Nat) (origin_mailbox : Nat) : Option Nat :=
  (maxInt? ((db.messages.filter
    (msgScope (address_to_bytes origin_mailbox) (toI32 origin_domain))).map (·.nonce))).map toU32

/-- `ScraperDb::retrieve_message_by_nonce`: exact-match lookup on the unique
key, reconstructing the protocol message.  `version` is not persisted and is
always populated as `3`; an absent body is rehydrated as the empty byte
sequence; address decoding can fail. -/
def retrieve_message_by_nonce (db : Db) (origin_domain : Nat) (origin_mailbox : Nat)
    (nonce : Nat) : Except String (Option HyperlaneMessage) :=
  match db.messages.find?
      (msgKeyFilter (address_to_bytes origin_mailbox) (toI32 origin_domain) (toI32 nonce)) with
  | none => Except.ok none
  | some row => do
    let sender ← bytes_to_address row.sender
    let recipient ← bytes_to_address row.recipient
    Except.ok (some
      { version := 3,
        origin := toU32 row.origin,
        destination := toU32 row.destination,
        nonce := toU32 row.nonce,
        sender := sender,
        recipient := recipient,
        body := row.msg_body.getD [] })

/-- `ScraperDb::retrieve_dispatched_tx_id`: `MAX(origin_tx_id)` grouped by
origin over the rows matching the full key.  Because of the `GROUP BY`, a
query with no matching rows produces no result row at all, hence `none`. -/
def retrieve_dispatched_tx_id (db : Db) (origin_domain : Nat) (origin_mailbox : Nat)
    (nonce : Nat) : Option Int :=
  maxInt? ((db.messages.filter
    (msgKeyFilter (address_to_bytes origin_mailbox) (toI32 origin_domain)
      (toI32 nonce))).map (·.origin_tx_id))

/-- The one result row of the un-grouped aggregate `SELECT MAX(id)` in
`latest_dispatched_id`: the outer layer is the row produced by `.one()`
(always present for an aggregate without `GROUP BY`), the inner layer is the
nullable `MAX`. -/
def latest_dispatched_id_query (db : Db) (domain : Nat) (origin_mailbox : List Nat) :
    Option (Option Int) :=
  some (maxInt? ((db.messages.filter (msgScope origin_mailbox (toI32 domain))).map (·.id)))

/-- `ScraperDb::latest_dispatched_id`: errors when the aggregate query yields
no row at all, and defaults the null maximum of an empty filtered set to 0. -/
def latest_dispatched_id (db : Db) (domain : Nat) (origin_mailbox : List Nat) :
    Except String Int :=
  match latest_dispatched_id_query db domain origin_mailbox with
  | none => Except.error "Error getting latest dispatched id"
  | some inner => Except.ok (inner.getD 0)

/-- The one result row of the un-grouped aggregate `SELECT MAX(id)` in
`latest_deliveries_id`. -/
def latest_deliveries_id_query (db : Db) (domain : Nat) (destination_mailbox : List Nat) :
    Option (Option Int) :=
  some (maxInt? ((db.deliveries.filter (delScope destination_mailbox (toI32 domain))).map (·.id)))

/-- `ScraperDb::latest_deliveries_id`: errors when the aggregate query yields
no row at all, and defaults the null maximum of an empty filtered set to 0. -/
def latest_deliveries_id (db : Db) (domain : Nat) (destination_mailbox : List Nat) :
    Except String Int :=
  match latest_deliveries_id_query db domain destination_mailbox with
  | none => Except.error "Error getting latest delivery id"
  | some inner => Except.ok (inner.getD 0)

/-- The always-successful value of `latest_dispatched_id` (the store's
baseline); `latest_dispatched_id` provably returns `Except.ok` of this. -/
def maxDispatchedId (db : Db) (domain : Nat) (origin_mailbox : List Nat) : Int :=
  (maxInt? ((db.messages.filter (msgScope origin_mailbox (toI32 domain))).map (·.id))).getD 0

/-- The always-successful value of `latest_deliveries_id`. -/
def maxDeliveriesId (db : Db) (domain : Nat) (destination_mailbox : List Nat) : Int :=
  (maxInt? ((db.deliveries.filter (delScope destination_mailbox (toI32 domain))).map (·.id))).getD 0

/-- `ScraperDb::dispatch_count_since_id`: count of scoped rows with
`id > prev_id`. -/
def dispatch_count_since_id (db : Db) (domain : Nat) (origin_mailbox : List Nat)
    (prev_id : Int) : Nat :=
  (db.messages.filter
    (fun r => msgScope origin_mailbox (toI32 domain) r && decide (prev_id < r.id))).length

/-- `ScraperDb::deliveries_count_since_id`: count of scoped rows with
`id > prev_id`. -/
def deliveries_count_since_id (db : Db) (domain : Nat) (destination_mailbox : List Nat)
    (prev_id : Int) : Nat :=
  (db.deliveries.filter
    (fun r => delScope destination_mailbox (toI32 domain) r && decide (prev_id < r.id))).length

/-! ## Write-side operations -/

/-- `msg_body` column value: the source stores an empty body as `None`. -/
def bodyOpt (b : List Nat) : Option (List Nat) := if b.isEmpty then none else some b

/-- The freshly inserted `message` row built from one `StorableMessage` (the
active model of `store_dispatched_messages`, with the auto-assigned id made
explicit).  Conflict-key columns come from the message itself
(`origin as i32`, `nonce as i32`) and the call's mailbox argument. -/
def msgRowOf (nextId : Int) (now : Nat) (mb : List Nat) (s : StorableMessage) : MessageRow :=
  { id := nextId,
    timeCreated := now,
    msg_id := h256_to_bytes (msgIdOf s.msg),
    origin := toI32 s.msg.origin,
    destination := toI32 s.msg.destination,
    nonce := toI32 s.msg.nonce,
    sender := address_to_bytes s.msg.sender,
    recipient := address_to_bytes s.msg.recipient,
    msg_body := bodyOpt s.msg.body,
    origin_mailbox := mb,
    origin_tx_id := s.txn_id }

/-- The `ON CONFLICT ... UPDATE` column set of `store_dispatched_messages`:
exactly `time_created, destination, sender, recipient, msg_body,
origin_tx_id` are refreshed; id, `msg_id` and the conflict-key columns keep
their stored values. -/
def msgOnConflictUpdate (now : Nat) (s : StorableMessage) (r : MessageRow) : MessageRow :=
  { r with
    timeCreated := now,
    destination := toI32 s.msg.destination,
    sender := address_to_bytes s.msg.sender,
    recipient := address_to_bytes s.msg.recipient,
    msg_body := bodyOpt s.msg.body,
    origin_tx_id := s.txn_id }

/-- One row of the batch upsert of `store_dispatched_messages`: insert with a
fresh id when no row holds the conflict key `(origin_mailbox, origin, nonce)`,
otherwise update the mutable columns of the conflicting row in place. -/
def upsertMessage (now : Nat) (mb : List Nat) (db : Db) (s : StorableMessage) : Db :=
  if db.messages.any (msgConflict mb (toI32 s.msg.origin) (toI32 s.msg.nonce)) then
    { db with
      messages := db.messages.map
        (fun r => if msgConflict mb (toI32 s.msg.origin) (toI32 s.msg.nonce) r then
          msgOnConflictUpdate now s r else r) }
  else
    { db with
      messages := db.messages ++ [msgRowOf db.nextMessageId now mb s],
      nextMessageId := db.nextMessageId + 1 }

/-- `ScraperDb::store_dispatched_messages`: capture the baseline watermark,
`debug_assert!` the batch non-empty (modelled as `none`), run the batch
upsert, and recount the scoped rows above the baseline.  The clock value of
`date_time::now()` is passed explicitly. -/
def store_dispatched_messages (db : Db) (now : Nat) (domain : Nat) (origin_mailbox : Nat)
    (messages : List StorableMessage) : Option (Db × Nat) :=
  let mb := address_to_bytes origin_mailbox
  let latest_id_before := maxDispatchedId db domain mb
  if messages.isEmpty then none
  else
    let db1 := messages.foldl (upsertMessage now mb) db
    some (db1, dispatch_count_since_id db1 domain mb latest_id_before)

/-- The freshly inserted `delivered_message` row built from one
`StorableDelivery`: `domain` and `destination_mailbox` come from the call's
arguments, `msg_id` and `destination_tx_id` from the event. -/
def delRowOf (nextId : Int) (now : Nat) (domain : Nat) (mb : List Nat)
    (s : StorableDelivery) : DeliveredRow :=
  { id := nextId,
    timeCreated := now,
    msg_id := h256_to_bytes s.message_id,
    domain := toI32 domain,
    destination_mailbox := mb,
    destination_tx_id := s.txn_id }

/-- The `ON CONFLICT ... UPDATE` column set of `store_deliveries`: exactly
`time_created` and `destination_tx_id` are refreshed. -/
def delOnConflictUpdate (now : Nat) (s : StorableDelivery) (r : DeliveredRow) : DeliveredRow :=
  { r with timeCreated := now, destination_tx_id := s.txn_id }

/-- One row of the batch upsert of `store_deliveries`, conflict key `msg_id`
alone. -/
def upsertDelivery (now : Nat) (domain : Nat) (mb : List Nat) (db : Db)
    (s : StorableDelivery) : Db :=
  if db.deliveries.any (delConflict (h256_to_bytes s.message_id)) then
    { db with
      deliveries := db.deliveries.map
        (fun r => if delConflict (h256_to_bytes s.message_id) r then
          delOnConflictUpdate now s r else r) }
  else
    { db with
      deliveries := db.deliveries ++ [delRowOf db.nextDeliveryId now domain mb s],
      nextDeliveryId := db.nextDeliveryId + 1 }

/-- `ScraperDb::store_deliveries`: same four-step watermark protocol as
`store_dispatched_messages`, on the `delivered_message` table. -/
def store_deliveries (db : Db) (now : Nat) (domain : Nat) (destination_mailbox : Nat)
    (deliveries : List StorableDelivery) : Option (Db × Nat) :=
  let mb := address_to_bytes destination_mailbox
  let latest_id_before := maxDeliveriesId db domain mb
  if deliveries.isEmpty then none
  else
    let db1 := deliveries.foldl (upsertDelivery now domain mb) db
    some (db1, deliveries_count_since_id db1 domain mb latest_id_before)

/-- Spec-side alternative for `retrieve_dispatched_tx_id` ("a direct unique
point lookup"): the first row matching the key, projected to its tx id. -/
def dispatchTxIdPointLookup (db : Db) (origin_domain : Nat) (origin_mailbox : Nat)
    (nonce : Nat) : Option Int :=
  (db.messages.find?
    (msgKeyFilter (address_to_bytes origin_mailbox) (toI32 origin_domain) (toI32 nonce))).map
    (·.origin_tx_id)

/-- The scoped rows that `last_message_nonce` aggregates over. -/
def nonceRows (db : Db) (origin_domain : Nat) (origin_mailbox : Nat) : List MessageRow :=
  db.messages.filter (msgScope (address_to_bytes origin_mailbox) (toI32 origin_domain))

/-- Maximum of a list of naturals, `none` on the empty list. -/
def maxNat? (l : List Nat) : Option Nat :=
  match l with
  | [] => none
  | a :: as => some (as.foldl max a)

/-- The true (unsigned, u32-valued) maximum nonce stored for a scope. -/
def trueMaxNonce (db : Db) (origin_domain : Nat) (origin_mailbox : Nat) : Option Nat :=
  maxNat? ((nonceRows db origin_domain origin_mailbox).map (fun r => toU32 r.nonce))

/-! ## Concrete instances used in example-level theorems -/

/-- Placeholder row, used only as a `getD` default. -/
def dummyRow : MessageRow :=
  { id := 0, timeCreated := 0, msg_id := [], origin := 0, destination := 0, nonce := 0,
    sender := [], recipient := [], msg_body := none, origin_mailbox := [], origin_tx_id := 0 }

/-- A message for origin domain 7 / mailbox 5 with the given nonce and body. -/
def mkMsg (nonce : Nat) (body : List Nat) : HyperlaneMessage :=
  { version := 3, nonce := nonce, origin := 7, sender := 11, destination := 9,
    recipient := 13, body := body }

/-- The spec's idempotence example: `[(msg nonce=5, tx=100), (msg nonce=6, tx=101)]`. -/
def exBatchM : List StorableMessage := [⟨mkMsg 5 [1, 2], 100⟩, ⟨mkMsg 6 [], 101⟩]

/-- A one-delivery batch. -/
def exBatchD : List StorableDelivery := [⟨12345, 200⟩]

/-- The store after ingesting `exBatchM` for domain 7 / mailbox 5. -/
def exDbM : Db := ((store_dispatched_messages emptyDb 10 7 5 exBatchM).getD (emptyDb, 0)).1

/-- The spec's nonce-resumption example: nonces `{0,1,2}`. -/
def nonces012batch : List StorableMessage :=
  [⟨mkMsg 0 [], 100⟩, ⟨mkMsg 1 [], 101⟩, ⟨mkMsg 2 [], 102⟩]

/-- The store after ingesting nonces `{0,1,2}` for domain 7 / mailbox 5. -/
def nonces012db : Db :=
  ((store_dispatched_messages emptyDb 0 7 5 nonces012batch).getD (emptyDb, 0)).1

/-- Nonces `{1, 2^31}`: one on each side of the signed 32-bit boundary. -/
def mixedNonceBatch : List StorableMessage := [⟨mkMsg 1 [], 1⟩, ⟨mkMsg (2 ^ 31) [], 2⟩]

/-- The store after ingesting nonces `{1, 2^31}` for domain 7 / mailbox 5. -/
def mixedNonceDb : Db :=
  ((store_dispatched_messages emptyDb 0 7 5 mixedNonceBatch).getD (emptyDb, 0)).1

/-- Nonce `{2^31}` alone: entirely above the signed 32-bit boundary. -/
def highNonceBatch : List StorableMessage := [⟨mkMsg (2 ^ 31) [], 2⟩]

/-- The store after ingesting nonce `{2^31}` for domain 7 / mailbox 5. -/
def highNonceDb : Db :=
  ((store_dispatched_messages emptyDb 0 7 5 highNonceBatch).getD (emptyDb, 0)).1

/-! ## Basic facts about the conversions -/

theorem natToBytesBE_length (w a : Nat) : (natToBytesBE w a).length = w := by
  induction w generalizing a with
  | zero => rfl
  | succ w ih => simp [natToBytesBE, ih]

theorem bytesToNat_append_single (l : List Nat) (b : Nat) :
    bytesToNat (l ++ [b]) = bytesToNat l * 256 + b := by
  simp [bytesToNat, List.foldl_append]

theorem bytesToNat_natToBytesBE (w a : Nat) (h : a < 256 ^ w) :
    bytesToNat (natToBytesBE w a) = a := by
  induction w generalizing a with
  | zero =>
    interval_cases a
    rfl
  | succ w ih =>
    have hdiv : a / 256 < 256 ^ w := by
      rw [Nat.div_lt_iff_lt_mul (by norm_num)]
      calc a < 256 ^ (w + 1) := h
        _ = 256 ^ w * 256 := by ring
    rw [natToBytesBE, bytesToNat_append_single, ih _ hdiv]
    omega

theorem bytes_to_address_address_to_bytes (a : Nat) (h : a < 2 ^ 256) :
    bytes_to_address (address_to_bytes a) = Except.ok a := by
  have h' : a < 256 ^ 32 := by
    calc a < 2 ^ 256 := h
      _ = 256 ^ 32 := by norm_num
  simp [bytes_to_address, address_to_bytes, natToBytesBE_length, bytesToNat_natToBytesBE 32 a h']

theorem toU32_toI32 (n : Nat) (h : n < 2 ^ 32) : toU32 (toI32 n) = n := by
  unfold toI32 toU32
  by_cases h31 : n < 2 ^ 31
  · rw [if_pos h31, Int.emod_eq_of_lt (by positivity) (by exact_mod_cast h)]
    exact Int.toNat_natCast n
  · rw [if_neg h31]
    have : ((n : Int) - 2 ^ 32) % 2 ^ 32 = (n : Int) % 2 ^ 32 := by
      omega
    rw [this, Int.emod_eq_of_lt (by positivity) (by exact_mod_cast h)]
    exact Int.toNat_natCast n

/-- `toI32` lands in the signed 32-bit range. -/
theorem toI32_range (n : Nat) (h : n < 2 ^ 32) : -(2 ^ 31) ≤ toI32 n ∧ toI32 n < 2 ^ 31 := by
  unfold toI32
  by_cases h31 : n < 2 ^ 31
  · rw [if_pos h31]
    omega
  · rw [if_neg h31]
    omega

/-- `toU32` is monotone on the common (non-negative, in-range) case. -/
theorem toU32_mono (x y : Int) (hx : 0 ≤ x) (hy' : y < 2 ^ 32) (hxy : x ≤ y) :
    toU32 x ≤ toU32 y := by
  unfold toU32
  rw [Int.emod_eq_of_lt hx (by omega), Int.emod_eq_of_lt (by omega) hy']
  omega

theorem toU32_of_nonneg (x : Int) (hx : 0 ≤ x) (hx' : x < 2 ^ 32) : (toU32 x : Int) = x := by
  unfold toU32
  rw [Int.emod_eq_of_lt hx hx']
  exact Int.toNat_of_nonneg hx

theorem toU32_neg_ge (x : Int) (hx : -(2 ^ 31) ≤ x) (hx' : x < 0) : 2 ^ 31 ≤ toU32 x := by
  unfold toU32
  have : x % 2 ^ 32 = x + 2 ^ 32 := by
    omega
  rw [this]
  omega

/-! ## Facts about list maxima -/

theorem foldl_max_init_le {α : Type} [LinearOrder α] (l : List α) (a : α) :
    a ≤ l.foldl max a := by
  induction l generalizing a with
  | nil => simp
  | cons b t ih => exact le_trans (le_max_left a b) (ih (max a b))

theorem foldl_max_le_of_mem {α : Type} [LinearOrder α] (l : List α) (a x : α) (hx : x ∈ l) :
    x ≤ l.foldl max a := by
  induction l generalizing a with
  | nil => cases hx
  | cons b t ih =>
    rcases List.mem_cons.mp hx with h | h
    · subst h
      exact le_trans (le_max_right a x) (foldl_max_init_le t _)
    · exact ih _ h

theorem foldl_max_mem {α : Type} [LinearOrder α] (l : List α) (a : α) :
    l.foldl max a = a ∨ l.foldl max a ∈ l := by
  induction l generalizing a with
  | nil => exact Or.inl rfl
  | cons b t ih =>
    rcases ih (max a b) with h | h
    · rcases max_choice a b with hm | hm
      · exact Or.inl (h.trans hm)
      · exact Or.inr (List.mem_cons.mpr (Or.inl (h.trans hm)))
    · exact Or.inr (List.mem_cons.mpr (Or.inr h))

theorem maxInt?_eq_none_iff (l : List Int) : maxInt? l = none ↔ l = [] := by
  cases l <;> simp [maxInt?]

theorem maxInt?_mem (l : List Int) (m : Int) (h : maxInt? l = some m) : m ∈ l := by
  cases l with
  | nil => cases h
  | cons a t =>
    simp only [maxInt?, Option.some.injEq] at h
    subst h
    rcases foldl_max_mem t a with h | h
    · exact List.mem_cons.mpr (Or.inl h)
    · exact List.mem_cons.mpr (Or.inr h)

theorem le_maxInt? (l : List Int) (m : Int) (h : maxInt? l = some m) :
    ∀ a ∈ l, a ≤ m := by
  cases l with
  | nil => cases h
  | cons a t =>
    simp only [maxInt?, Option.some.injEq] at h
    subst h
    intro x hx
    rcases List.mem_cons.mp hx with h | h
    · subst h
      exact foldl_max_init_le t x
    · exact foldl_max_le_of_mem t a x h

theorem maxNat?_eq_none_iff (l : List Nat) : maxNat? l = none ↔ l = [] := by
  cases l <;> simp [maxNat?]

theorem maxNat?_mem (l : List Nat) (m : Nat) (h : maxNat? l = some m) : m ∈ l := by
  cases l with
  | nil => cases h
  | cons a t =>
    simp only [maxNat?, Option.some.injEq] at h
    subst h
    rcases foldl_max_mem t a with h | h
    · exact List.mem_cons.mpr (Or.inl h)
    · exact List.mem_cons.mpr (Or.inr h)

theorem le_maxNat? (l : List Nat) (m : Nat) (h : maxNat? l = some m) :
    ∀ a ∈ l, a ≤ m := by
  cases l with
  | nil => cases h
  | cons a t =>
    simp only [maxNat?, Option.some.injEq] at h
    subst h
    intro x hx
    rcases List.mem_cons.mp hx with h | h
    · subst h
      exact foldl_max_init_le t x
    · exact foldl_max_le_of_mem t a x h

/-! ## Transport of filters/counts along a column projection

The watermark protocol only reads the columns `(id, origin, origin_mailbox,
nonce)` of a message row (resp. `(id, domain, destination_mailbox, msg_id)` of
a delivery row).  Counting and aggregate queries are therefore invariant under
any rewrite of the table that preserves that projection — which is exactly
what an `ON CONFLICT` update does. -/

theorem filter_length_transport {α β : Type} (f : α → β) (p : α → Bool) (q : β → Bool)
    (hpq : ∀ a, p a = q (f a)) (l l' : List α) (h : l.map f = l'.map f) :
    (l.filter p).length = (l'.filter p).length := by
  have key : ∀ t : List α, (t.filter p).length = ((t.map f).filter q).length := by
    intro t
    induction t with
    | nil => rfl
    | cons a t ih =>
      rw [List.map_cons, List.filter_cons, List.filter_cons, hpq a]
      cases q (f a) <;> simp [ih]
  rw [key l, key l', h]

theorem filter_map_transport {α β γ : Type} (f : α → β) (p : α → Bool) (q : β → Bool)
    (hpq : ∀ a, p a = q (f a)) (g : α → γ) (k : β → γ) (hgk : ∀ a, g a = k (f a))
    (l l' : List α) (h : l.map f = l'.map f) :
    (l.filter p).map g = (l'.filter p).map g := by
  have key : ∀ t : List α, (t.filter p).map g = ((t.map f).filter q).map k := by
    intro t
    induction t with
    | nil => rfl
    | cons a t ih =>
      rw [List.map_cons, List.filter_cons, List.filter_cons, hpq a]
      cases q (f a) <;> simp [ih, hgk a]
  rw [key l, key l', h]

theorem any_transport {α β : Type} (f : α → β) (p : α → Bool) (q : β → Bool)
    (hpq : ∀ a, p a = q (f a)) (l l' : List α) (h : l.map f = l'.map f) :
    l.any p = l'.any p := by
  have key : ∀ t : List α, t.any p = (t.map f).any q := by
    intro t
    induction t with
    | nil => rfl
    | cons a t ih => simp [ih, hpq a]
  rw [key l, key l', h]

/-- The columns of a `message` row read by scoping, conflict detection and the
watermark counter. -/
def projM (r : MessageRow) : Int × Int × List Nat × Int :=
  (r.id, r.origin, r.origin_mailbox, r.nonce)

theorem projM_update (now : Nat) (s : StorableMessage) (r : MessageRow) :
    projM (msgOnConflictUpdate now s r) = projM r := rfl

theorem msgScope_factor (mb : List Nat) (d : Int) (r : MessageRow) :
    msgScope mb d r = (fun t : Int × Int × List Nat × Int => t.2.1 == d && t.2.2.1 == mb)
      (projM r) := rfl

theorem msgConflict_factor (mb : List Nat) (o n : Int) (r : MessageRow) :
    msgConflict mb o n r =
      (fun t : Int × Int × List Nat × Int => t.2.2.1 == mb && t.2.1 == o && t.2.2.2 == n)
      (projM r) := rfl

theorem msgCount_factor (mb : List Nat) (d : Int) (prev : Int) (r : MessageRow) :
    (msgScope mb d r && decide (prev < r.id)) =
      (fun t : Int × Int × List Nat × Int =>
        (t.2.1 == d && t.2.2.1 == mb) && decide (prev < t.1)) (projM r) := rfl

/-! ## Structural facts about the message upsert -/

theorem upsertMessage_deliveries (now : Nat) (mb : List Nat) (db : Db) (s : StorableMessage) :
    (upsertMessage now mb db s).deliveries = db.deliveries ∧
    (upsertMessage now mb db s).nextDeliveryId = db.nextDeliveryId := by
  unfold upsertMessage
  split <;> exact ⟨rfl, rfl⟩

theorem upsertMessage_pos (now : Nat) (mb : List Nat) (db : Db) (s : StorableMessage)
    (h : db.messages.any (msgConflict mb (toI32 s.msg.origin) (toI32 s.msg.nonce)) = true) :
    (upsertMessage now mb db s).messages = db.messages.map
      (fun r => if msgConflict mb (toI32 s.msg.origin) (toI32 s.msg.nonce) r then
        msgOnConflictUpdate now s r else r) ∧
    (upsertMessage now mb db s).nextMessageId = db.nextMessageId := by
  unfold upsertMessage
  rw [if_pos h]
  exact ⟨rfl, rfl⟩

theorem upsertMessage_neg (now : Nat) (mb : List Nat) (db : Db) (s : StorableMessage)
    (h : ¬ db.messages.any (msgConflict mb (toI32 s.msg.origin) (toI32 s.msg.nonce)) = true) :
    (upsertMessage now mb db s).messages =
      db.messages ++ [msgRowOf db.nextMessageId now mb s] ∧
    (upsertMessage now mb db s).nextMessageId = db.nextMessageId + 1 := by
  unfold upsertMessage
  rw [if_neg h]
  exact ⟨rfl, rfl⟩

theorem upsertMessage_projM_pos (now : Nat) (mb : List Nat) (db : Db) (s : StorableMessage)
    (h : db.messages.any (msgConflict mb (toI32 s.msg.origin) (toI32 s.msg.nonce)) = true) :
    (upsertMessage now mb db s).messages.map projM = db.messages.map projM := by
  rw [(upsertMessage_pos now mb db s h).1, List.map_map]
  refine List.map_congr_left ?_
  intro r _
  by_cases hc : msgConflict mb (toI32 s.msg.origin) (toI32 s.msg.nonce) r = true
  · simp [hc, projM_update]
  · simp [hc]

theorem upsertMessage_projM_ex (now : Nat) (mb : List Nat) (db : Db) (s : StorableMessage)
    (r : MessageRow) (hr : r ∈ db.messages) :
    ∃ r' ∈ (upsertMessage now mb db s).messages, projM r' = projM r := by
  by_cases h : db.messages.any (msgConflict mb (toI32 s.msg.origin) (toI32 s.msg.nonce)) = true
  · rw [(upsertMessage_pos now mb db s h).1]
    refine ⟨_, List.mem_map_of_mem _ hr, ?_⟩
    by_cases hc : msgConflict mb (toI32 s.msg.origin) (toI32 s.msg.nonce) r = true
    · simp [hc, projM_update]
    · simp [hc]
  · rw [(upsertMessage_neg now mb db s h).1]
    exact ⟨r, List.mem_append_left _ hr, rfl⟩

theorem upsertMessage_any_mono (now : Nat) (mb : List Nat) (db : Db) (s : StorableMessage)
    (p : MessageRow → Bool) (q : Int × Int × List Nat × Int → Bool)
    (hpq : ∀ r, p r = q (projM r))
    (h : db.messages.any p = true) : (upsertMessage now mb db s).messages.any p = true := by
  by_cases hc : db.messages.any (msgConflict mb (toI32 s.msg.origin) (toI32 s.msg.nonce)) = true
  · rw [any_transport projM p q hpq _ db.messages (upsertMessage_projM_pos now mb db s hc)]
    exact h
  · rw [(upsertMessage_neg now mb db s hc).1, List.any_append, h]
    rfl

theorem upsertMessage_own_key (now : Nat) (mb : List Nat) (db : Db) (s : StorableMessage) :
    (upsertMessage now mb db s).messages.any
      (msgConflict mb (toI32 s.msg.origin) (toI32 s.msg.nonce)) = true := by
  by_cases hc : db.messages.any (msgConflict mb (toI32 s.msg.origin) (toI32 s.msg.nonce)) = true
  · rw [any_transport projM _
      (fun t : Int × Int × List Nat × Int =>
        t.2.2.1 == mb && t.2.1 == toI32 s.msg.origin && t.2.2.2 == toI32 s.msg.nonce)
      (msgConflict_factor mb (toI32 s.msg.origin) (toI32 s.msg.nonce))
      _ db.messages (upsertMessage_projM_pos now mb db s hc)]
    exact hc
  · rw [(upsertMessage_neg now mb db s hc).1, List.any_append]
    have : msgConflict mb (toI32 s.msg.origin) (toI32 s.msg.nonce)
        (msgRowOf db.nextMessageId now mb s) = true := by
      simp [msgConflict, msgRowOf]
    simp [this]

/-! ## Facts about the folded batch upsert on the message table -/

theorem foldM_deliveries (now : Nat) (mb : List Nat) (l : List StorableMessage) :
    ∀ db : Db, (l.foldl (upsertMessage now mb) db).deliveries = db.deliveries ∧
      (l.foldl (upsertMessage now mb) db).nextDeliveryId = db.nextDeliveryId := by
  induction l with
  | nil => exact fun db => ⟨rfl, rfl⟩
  | cons s t ih =>
    intro db
    rw [List.foldl_cons]
    refine ⟨?_, ?_⟩
    · rw [(ih (upsertMessage now mb db s)).1, (upsertMessage_deliveries now mb db s).1]
    · rw [(ih (upsertMessage now mb db s)).2, (upsertMessage_deliveries now mb db s).2]

theorem foldM_projM_ex (now : Nat) (mb : List Nat) (l : List StorableMessage) :
    ∀ db : Db, ∀ r ∈ db.messages,
      ∃ r' ∈ (l.foldl (upsertMessage now mb) db).messages, projM r' = projM r := by
  induction l with
  | nil => exact fun db r hr => ⟨r, hr, rfl⟩
  | cons s t ih =>
    intro db r hr
    rw [List.foldl_cons]
    obtain ⟨r1, hr1, he1⟩ := upsertMessage_projM_ex now mb db s r hr
    obtain ⟨r2, hr2, he2⟩ := ih (upsertMessage now mb db s) r1 hr1
    exact ⟨r2, hr2, he2.trans he1⟩

theorem foldM_any_mono (now : Nat) (mb : List Nat) (l : List StorableMessage)
    (p : MessageRow → Bool) (q : Int × Int × List Nat × Int → Bool)
    (hpq : ∀ r, p r = q (projM r)) :
    ∀ db : Db, db.messages.any p = true →
      (l.foldl (upsertMessage now mb) db).messages.any p = true := by
  induction l with
  | nil => exact fun db h => h
  | cons s t ih =>
    intro db h
    rw [List.foldl_cons]
    exact ih (upsertMessage now mb db s) (upsertMessage_any_mono now mb db s p q hpq h)

theorem foldM_keys_present (now : Nat) (mb : List Nat) (l : List StorableMessage) :
    ∀ db : Db, ∀ s ∈ l, (l.foldl (upsertMessage now mb) db).messages.any
      (msgConflict mb (toI32 s.msg.origin) (toI32 s.msg.nonce)) = true := by
  induction l with
  | nil => intro db s hs; cases hs
  | cons s0 t ih =>
    intro db s hs
    rw [List.foldl_cons]
    rcases List.mem_cons.mp hs with h | h
    · subst h
      exact foldM_any_mono now mb t _
        (fun u : Int × Int × List Nat × Int =>
          u.2.2.1 == mb && u.2.1 == toI32 s.msg.origin && u.2.2.2 == toI32 s.msg.nonce)
        (msgConflict_factor mb (toI32 s.msg.origin) (toI32 s.msg.nonce))
        (upsertMessage now mb db s) (upsertMessage_own_key now mb db s)
    · exact ih (upsertMessage now mb db s0) s h

theorem foldM_update_only (now : Nat) (mb : List Nat) (l : List StorableMessage) :
    ∀ db : Db, (∀ s ∈ l, db.messages.any
        (msgConflict mb (toI32 s.msg.origin) (toI32 s.msg.nonce)) = true) →
      (l.foldl (upsertMessage now mb) db).messages.map projM = db.messages.map projM ∧
      (l.foldl (upsertMessage now mb) db).nextMessageId = db.nextMessageId := by
  induction l with
  | nil => exact fun db _ => ⟨rfl, rfl⟩
  | cons s0 t ih =>
    intro db h
    rw [List.foldl_cons]
    have h0 : db.messages.any
        (msgConflict mb (toI32 s0.msg.origin) (toI32 s0.msg.nonce)) = true :=
      h s0 (List.mem_cons_self s0 t)
    have hmap := upsertMessage_projM_pos now mb db s0 h0
    have hnext := (upsertMessage_pos now mb db s0 h0).2
    have ht : ∀ s ∈ t, (upsertMessage now mb db s0).messages.any
        (msgConflict mb (toI32 s.msg.origin) (toI32 s.msg.nonce)) = true := by
      intro s hs
      rw [any_transport projM _
        (fun u : Int × Int × List Nat × Int =>
          u.2.2.1 == mb && u.2.1 == toI32 s.msg.origin && u.2.2.2 == toI32 s.msg.nonce)
        (msgConflict_factor mb (toI32 s.msg.origin) (toI32 s.msg.nonce))
        _ db.messages hmap]
      exact h s (List.mem_cons_of_mem s0 hs)
    obtain ⟨hm, hn⟩ := ih (upsertMessage now mb db s0) ht
    exact ⟨hm.trans hmap, hn.trans hnext⟩

theorem upsertMessage_wf (now : Nat) (mb : List Nat) (db : Db) (s : StorableMessage)
    (h : WfDb db) : WfDb (upsertMessage now mb db s) := by
  obtain ⟨h1, h2, h3, h4⟩ := h
  by_cases hc : db.messages.any (msgConflict mb (toI32 s.msg.origin) (toI32 s.msg.nonce)) = true
  · obtain ⟨hm, hn⟩ := upsertMessage_pos now mb db s hc
    obtain ⟨hd, hnd⟩ := upsertMessage_deliveries now mb db s
    refine ⟨?_, ?_, ?_, ?_⟩
    · intro r hr
      rw [hm] at hr
      obtain ⟨r0, hr0, he⟩ := List.mem_map.mp hr
      rw [hn]
      have : r.id = r0.id := by
        subst he
        by_cases hcc : msgConflict mb (toI32 s.msg.origin) (toI32 s.msg.nonce) r0 = true <;>
          simp [hcc, msgOnConflictUpdate]
      rw [this]
      exact h1 r0 hr0
    · intro r hr
      rw [hd] at hr
      rw [hnd]
      exact h2 r hr
    · rw [hn]; exact h3
    · rw [hnd]; exact h4
  · obtain ⟨hm, hn⟩ := upsertMessage_neg now mb db s hc
    obtain ⟨hd, hnd⟩ := upsertMessage_deliveries now mb db s
    refine ⟨?_, ?_, ?_, ?_⟩
    · intro r hr
      rw [hm] at hr
      rw [hn]
      rcases List.mem_append.mp hr with h | h
      · exact lt_trans (h1 r h) (by omega)
      · rcases List.mem_singleton.mp h with he
        rw [he]
        simp [msgRowOf]
    · intro r hr
      rw [hd] at hr
      rw [hnd]
      exact h2 r hr
    · rw [hn]; omega
    · rw [hnd]; exact h4

theorem foldM_wf (now : Nat) (mb : List Nat) (l : List StorableMessage) :
    ∀ db : Db, WfDb db → WfDb (l.foldl (upsertMessage now mb) db) := by
  induction l with
  | nil => exact fun db h => h
  | cons s t ih =>
    intro db h
    rw [List.foldl_cons]
    exact ih (upsertMessage now mb db s) (upsertMessage_wf now mb db s h)

/-- New rows appended by a fold get ids at or above the starting counter. -/
theorem foldM_nextId_mono (now : Nat) (mb : List Nat) (l : List StorableMessage) :
    ∀ db : Db, db.nextMessageId ≤ (l.foldl (upsertMessage now mb) db).nextMessageId := by
  induction l with
  | nil => exact fun db => le_refl _
  | cons s t ih =>
    intro db
    rw [List.foldl_cons]
    refine le_trans ?_ (ih (upsertMessage now mb db s))
    by_cases hc : db.messages.any (msgConflict mb (toI32 s.msg.origin) (toI32 s.msg.nonce)) = true
    · rw [(upsertMessage_pos now mb db s hc).2]
    · rw [(upsertMessage_neg now mb db s hc).2]; omega

/-! ## The watermark baseline and recount on the message table -/

theorem maxDispatchedId_lt_next (db : Db) (domain : Nat) (mb : List Nat) (h : WfDb db) :
    maxDispatchedId db domain mb < db.nextMessageId := by
  unfold maxDispatchedId
  cases hm : maxInt? ((db.messages.filter (msgScope mb (toI32 domain))).map (·.id)) with
  | none => simpa using h.2.2.1
  | some m =>
    have hmem := maxInt?_mem _ m hm
    obtain ⟨r, hr, he⟩ := List.mem_map.mp hmem
    have : r ∈ db.messages := (List.mem_filter.mp hr).1
    simpa [he] using h.1 r this

theorem dispatch_count_congr (db db' : Db) (domain : Nat) (mb : List Nat) (prev : Int)
    (h : db.messages.map projM = db'.messages.map projM) :
    dispatch_count_since_id db domain mb prev = dispatch_count_since_id db' domain mb prev := by
  unfold dispatch_count_since_id
  exact filter_length_transport projM _
    (fun t : Int × Int × List Nat × Int =>
      (t.2.1 == toI32 domain && t.2.2.1 == mb) && decide (prev < t.1))
    (msgCount_factor mb (toI32 domain) prev) _ _ h

/-- Recounting above the scope's own maximum id finds nothing. -/
theorem dispatch_count_self_zero (db : Db) (domain : Nat) (mb : List Nat) :
    dispatch_count_since_id db domain mb (maxDispatchedId db domain mb) = 0 := by
  unfold dispatch_count_since_id
  rw [List.length_eq_zero]
  rw [List.filter_eq_nil_iff]
  intro r hr
  intro hcontra
  rw [Bool.and_eq_true] at hcontra
  obtain ⟨hscope, hlt⟩ := hcontra
  have hrid : r.id ∈ (db.messages.filter (msgScope mb (toI32 domain))).map (·.id) :=
    List.mem_map_of_mem _ (List.mem_filter.mpr ⟨hr, hscope⟩)
  cases hm : maxInt? ((db.messages.filter (msgScope mb (toI32 domain))).map (·.id)) with
  | none =>
    rw [maxInt?_eq_none_iff] at hm
    rw [hm] at hrid
    cases hrid
  | some m =>
    have hle := le_maxInt? _ m hm r.id hrid
    have : maxDispatchedId db domain mb = m := by
      unfold maxDispatchedId
      rw [hm]
      rfl
    rw [this] at hlt
    rw [decide_eq_true_eq] at hlt
    omega

/-! ## Structural facts about the delivery upsert -/

/-- The columns of a `delivered_message` row read by scoping, conflict
detection and the watermark counter. -/
def projD (r : DeliveredRow) : Int × Int × List Nat × List Nat :=
  (r.id, r.domain, r.destination_mailbox, r.msg_id)

theorem projD_update (now : Nat) (s : StorableDelivery) (r : DeliveredRow) :
    projD (delOnConflictUpdate now s r) = projD r := rfl

theorem delScope_factor (mb : List Nat) (d : Int) (r : DeliveredRow) :
    delScope mb d r = (fun t : Int × Int × List Nat × List Nat => t.2.1 == d && t.2.2.1 == mb)
      (projD r) := rfl

theorem delConflict_factor (mid : List Nat) (r : DeliveredRow) :
    delConflict mid r =
      (fun t : Int × Int × List Nat × List Nat => t.2.2.2 == mid) (projD r) := rfl

theorem delCount_factor (mb : List Nat) (d : Int) (prev : Int) (r : DeliveredRow) :
    (delScope mb d r && decide (prev < r.id)) =
      (fun t : Int × Int × List Nat × List Nat =>
        (t.2.1 == d && t.2.2.1 == mb) && decide (prev < t.1)) (projD r) := rfl

theorem upsertDelivery_messages (now : Nat) (domain : Nat) (mb : List Nat) (db : Db)
    (s : StorableDelivery) :
    (upsertDelivery now domain mb db s).messages = db.messages ∧
    (upsertDelivery now domain mb db s).nextMessageId = db.nextMessageId := by
  unfold upsertDelivery
  split <;> exact ⟨rfl, rfl⟩

theorem upsertDelivery_pos (now : Nat) (domain : Nat) (mb : List Nat) (db : Db)
    (s : StorableDelivery)
    (h : db.deliveries.any (delConflict (h256_to_bytes s.message_id)) = true) :
    (upsertDelivery now domain mb db s).deliveries = db.deliveries.map
      (fun r => if delConflict (h256_to_bytes s.message_id) r then
        delOnConflictUpdate now s r else r) ∧
    (upsertDelivery now domain mb db s).nextDeliveryId = db.nextDeliveryId := by
  unfold upsertDelivery
  rw [if_pos h]
  exact ⟨rfl, rfl⟩

theorem upsertDelivery_neg (now : Nat) (domain : Nat) (mb : List Nat) (db : Db)
    (s : StorableDelivery)
    (h : ¬ db.deliveries.any (delConflict (h256_to_bytes s.message_id)) = true) :
    (upsertDelivery now domain mb db s).deliveries =
      db.deliveries ++ [delRowOf db.nextDeliveryId now domain mb s] ∧
    (upsertDelivery now domain mb db s).nextDeliveryId = db.nextDeliveryId + 1 := by
  unfold upsertDelivery
  rw [if_neg h]
  exact ⟨rfl, rfl⟩

theorem upsertDelivery_projD_pos (now : Nat) (domain : Nat) (mb : List Nat) (db : Db)
    (s : StorableDelivery)
    (h : db.deliveries.any (delConflict (h256_to_bytes s.message_id)) = true) :
    (upsertDelivery now domain mb db s).deliveries.map projD = db.deliveries.map projD := by
  rw [(upsertDelivery_pos now domain mb db s h).1, List.map_map]
  refine List.map_congr_left ?_
  intro r _
  by_cases hc : delConflict (h256_to_bytes s.message_id) r = true
  · simp [hc, projD_update]
  · simp [hc]

theorem upsertDelivery_any_mono (now : Nat) (domain : Nat) (mb : List Nat) (db : Db)
    (s : StorableDelivery) (p : DeliveredRow → Bool)
    (q : Int × Int × List Nat × List Nat → Bool) (hpq : ∀ r, p r = q (projD r))
    (h : db.deliveries.any p = true) :
    (upsertDelivery now domain mb db s).deliveries.any p = true := by
  by_cases hc : db.deliveries.any (delConflict (h256_to_bytes s.message_id)) = true
  · rw [any_transport projD p q hpq _ db.deliveries
      (upsertDelivery_projD_pos now domain mb db s hc)]
    exact h
  · rw [(upsertDelivery_neg now domain mb db s hc).1, List.any_append, h]
    rfl

theorem upsertDelivery_own_key (now : Nat) (domain : Nat) (mb : List Nat) (db : Db)
    (s : StorableDelivery) :
    (upsertDelivery now domain mb db s).deliveries.any
      (delConflict (h256_to_bytes s.message_id)) = true := by
  by_cases hc : db.deliveries.any (delConflict (h256_to_bytes s.message_id)) = true
  · rw [any_transport projD _
      (fun t : Int × Int × List Nat × List Nat => t.2.2.2 == h256_to_bytes s.message_id)
      (delConflict_factor (h256_to_bytes s.message_id))
      _ db.deliveries (upsertDelivery_projD_pos now domain mb db s hc)]
    exact hc
  · rw [(upsertDelivery_neg now domain mb db s hc).1, List.any_append]
    have : delConflict (h256_to_bytes s.message_id)
        (delRowOf db.nextDeliveryId now domain mb s) = true := by
      simp [delConflict, delRowOf]
    simp [this]

/-! ## Facts about the folded batch upsert on the delivery table -/

theorem foldD_messages (now : Nat) (domain : Nat) (mb : List Nat) (l : List StorableDelivery) :
    ∀ db : Db, (l.foldl (upsertDelivery now domain mb) db).messages = db.messages ∧
      (l.foldl (upsertDelivery now domain mb) db).nextMessageId = db.nextMessageId := by
  induction l with
  | nil => exact fun db => ⟨rfl, rfl⟩
  | cons s t ih =>
    intro db
    rw [List.foldl_cons]
    refine ⟨?_, ?_⟩
    · rw [(ih (upsertDelivery now domain mb db s)).1,
        (upsertDelivery_messages now domain mb db s).1]
    · rw [(ih (upsertDelivery now domain mb db s)).2,
        (upsertDelivery_messages now domain mb db s).2]

theorem foldD_projD_ex (now : Nat) (domain : Nat) (mb : List Nat) (l : List StorableDelivery) :
    ∀ db : Db, ∀ r ∈ db.deliveries,
      ∃ r' ∈ (l.foldl (upsertDelivery now domain mb) db).deliveries, projD r' = projD r := by
  induction l with
  | nil => exact fun db r hr => ⟨r, hr, rfl⟩
  | cons s t ih =>
    intro db r hr
    rw [List.foldl_cons]
    have step : ∃ r1 ∈ (upsertDelivery now domain mb db s).deliveries, projD r1 = projD r := by
      by_cases hc : db.deliveries.any (delConflict (h256_to_bytes s.message_id)) = true
      · rw [(upsertDelivery_pos now domain mb db s hc).1]
        refine ⟨_, List.mem_map_of_mem _ hr, ?_⟩
        by_cases hcc : delConflict (h256_to_bytes s.message_id) r = true
        · simp [hcc, projD_update]
        · simp [hcc]
      · rw [(upsertDelivery_neg now domain mb db s hc).1]
        exact ⟨r, List.mem_append_left _ hr, rfl⟩
    obtain ⟨r1, hr1, he1⟩ := step
    obtain ⟨r2, hr2, he2⟩ := ih (upsertDelivery now domain mb db s) r1 hr1
    exact ⟨r2, hr2, he2.trans he1⟩

theorem foldD_any_mono (now : Nat) (domain : Nat) (mb : List Nat) (l : List StorableDelivery)
    (p : DeliveredRow → Bool) (q : Int × Int × List Nat × List Nat → Bool)
    (hpq : ∀ r, p r = q (projD r)) :
    ∀ db : Db, db.deliveries.any p = true →
      (l.foldl (upsertDelivery now domain mb) db).deliveries.any p = true := by
  induction l with
  | nil => exact fun db h => h
  | cons s t ih =>
    intro db h
    rw [List.foldl_cons]
    exact ih (upsertDelivery now domain mb db s)
      (upsertDelivery_any_mono now domain mb db s p q hpq h)

theorem foldD_keys_present (now : Nat) (domain : Nat) (mb : List Nat)
    (l : List StorableDelivery) :
    ∀ db : Db, ∀ s ∈ l, (l.foldl (upsertDelivery now domain mb) db).deliveries.any
      (delConflict (h256_to_bytes s.message_id)) = true := by
  induction l with
  | nil => intro db s hs; cases hs
  | cons s0 t ih =>
    intro db s hs
    rw [List.foldl_cons]
    rcases List.mem_cons.mp hs with h | h
    · subst h
      exact foldD_any_mono now domain mb t _
        (fun u : Int × Int × List Nat × List Nat => u.2.2.2 == h256_to_bytes s.message_id)
        (delConflict_factor (h256_to_bytes s.message_id))
        (upsertDelivery now domain mb db s) (upsertDelivery_own_key now domain mb db s)
    · exact ih (upsertDelivery now domain mb db s0) s h

theorem foldD_update_only (now : Nat) (domain : Nat) (mb : List Nat)
    (l : List StorableDelivery) :
    ∀ db : Db, (∀ s ∈ l, db.deliveries.any
        (delConflict (h256_to_bytes s.message_id)) = true) →
      (l.foldl (upsertDelivery now domain mb) db).deliveries.map projD =
        db.deliveries.map projD ∧
      (l.foldl (upsertDelivery now domain mb) db).nextDeliveryId = db.nextDeliveryId := by
  induction l with
  | nil => exact fun db _ => ⟨rfl, rfl⟩
  | cons s0 t ih =>
    intro db h
    rw [List.foldl_cons]
    have h0 : db.deliveries.any (delConflict (h256_to_bytes s0.message_id)) = true :=
      h s0 (List.mem_cons_self s0 t)
    have hmap := upsertDelivery_projD_pos now domain mb db s0 h0
    have hnext := (upsertDelivery_pos now domain mb db s0 h0).2
    have ht : ∀ s ∈ t, (upsertDelivery now domain mb db s0).deliveries.any
        (delConflict (h256_to_bytes s.message_id)) = true := by
      intro s hs
      rw [any_transport projD _
        (fun u : Int × Int × List Nat × List Nat => u.2.2.2 == h256_to_bytes s.message_id)
        (delConflict_factor (h256_to_bytes s.message_id))
        _ db.deliveries hmap]
      exact h s (List.mem_cons_of_mem s0 hs)
    obtain ⟨hm, hn⟩ := ih (upsertDelivery now domain mb db s0) ht
    exact ⟨hm.trans hmap, hn.trans hnext⟩

/-! ## The watermark baseline and recount on the delivery table -/

theorem maxDeliveriesId_lt_next (db : Db) (domain : Nat) (mb : List Nat) (h : WfDb db) :
    maxDeliveriesId db domain mb < db.nextDeliveryId := by
  unfold maxDeliveriesId
  cases hm : maxInt? ((db.deliveries.filter (delScope mb (toI32 domain))).map (·.id)) with
  | none => simpa using h.2.2.2
  | some m =>
    have hmem := maxInt?_mem _ m hm
    obtain ⟨r, hr, he⟩ := List.mem_map.mp hmem
    have : r ∈ db.deliveries := (List.mem_filter.mp hr).1
    simpa [he] using h.2.1 r this

theorem deliveries_count_congr (db db' : Db) (domain : Nat) (mb : List Nat) (prev : Int)
    (h : db.deliveries.map projD = db'.deliveries.map projD) :
    deliveries_count_since_id db domain mb prev =
      deliveries_count_since_id db' domain mb prev := by
  unfold deliveries_count_since_id
  exact filter_length_transport projD _
    (fun t : Int × Int × List Nat × List Nat =>
      (t.2.1 == toI32 domain && t.2.2.1 == mb) && decide (prev < t.1))
    (delCount_factor mb (toI32 domain) prev) _ _ h

/-- Recounting above the scope's own maximum id finds nothing. -/
theorem deliveries_count_self_zero (db : Db) (domain : Nat) (mb : List Nat) :
    deliveries_count_since_id db domain mb (maxDeliveriesId db domain mb) = 0 := by
  unfold deliveries_count_since_id
  rw [List.length_eq_zero]
  rw [List.filter_eq_nil_iff]
  intro r hr
  intro hcontra
  rw [Bool.and_eq_true] at hcontra
  obtain ⟨hscope, hlt⟩ := hcontra
  have hrid : r.id ∈ (db.deliveries.filter (delScope mb (toI32 domain))).map (·.id) :=
    List.mem_map_of_mem _ (List.mem_filter.mpr ⟨hr, hscope⟩)
  cases hm : maxInt? ((db.deliveries.filter (delScope mb (toI32 domain))).map (·.id)) with
  | none =>
    rw [maxInt?_eq_none_iff] at hm
    rw [hm] at hrid
    cases hrid
  | some m =>
    have hle := le_maxInt? _ m hm r.id hrid
    have : maxDeliveriesId db domain mb = m := by
      unfold maxDeliveriesId
      rw [hm]
      rfl
    rw [this] at hlt
    rw [decide_eq_true_eq] at hlt
    omega

/-! ## Watermark protocol: first-store and re-store counts -/

/-- Storing a batch whose head is not yet present yields a positive recount. -/
theorem dispatch_first_count_pos (db : Db) (hwf : WfDb db) (now : Nat) (domain : Nat)
    (mb : List Nat) (s0 : StorableMessage) (rest : List StorableMessage)
    (h0 : db.messages.any
      (msgConflict mb (toI32 s0.msg.origin) (toI32 s0.msg.nonce)) = false)
    (horigin : s0.msg.origin = domain) :
    0 < dispatch_count_since_id ((s0 :: rest).foldl (upsertMessage now mb) db) domain mb
      (maxDispatchedId db domain mb) := by
  have hb := maxDispatchedId_lt_next db domain mb hwf
  rw [List.foldl_cons]
  have hneg : ¬ db.messages.any
      (msgConflict mb (toI32 s0.msg.origin) (toI32 s0.msg.nonce)) = true := by
    rw [h0]
    exact Bool.false_ne_true
  obtain ⟨hm, _⟩ := upsertMessage_neg now mb db s0 hneg
  have hρ : msgRowOf db.nextMessageId now mb s0 ∈ (upsertMessage now mb db s0).messages := by
    rw [hm]
    exact List.mem_append_right _ (List.mem_singleton.mpr rfl)
  obtain ⟨r', hr', he⟩ :=
    foldM_projM_ex now mb rest (upsertMessage now mb db s0) _ hρ
  have hid : r'.id = db.nextMessageId := congrArg (fun t => t.1) he
  have hor : r'.origin = toI32 s0.msg.origin := congrArg (fun t => t.2.1) he
  have hmb : r'.origin_mailbox = mb := congrArg (fun t => t.2.2.1) he
  have hpred : (msgScope mb (toI32 domain) r' &&
      decide (maxDispatchedId db domain mb < r'.id)) = true := by
    rw [Bool.and_eq_true]
    constructor
    · unfold msgScope
      rw [hor, horigin, hmb, Bool.and_eq_true]
      exact ⟨beq_self_eq_true _, beq_self_eq_true _⟩
    · rw [decide_eq_true_eq, hid]
      exact hb
  unfold dispatch_count_since_id
  rw [List.length_pos]
  exact List.ne_nil_of_mem (List.mem_filter.mpr ⟨hr', hpred⟩)

/-- Re-storing a batch all of whose keys are present yields a zero recount. -/
theorem dispatch_restore_count_zero (db : Db) (now : Nat) (domain : Nat) (mb : List Nat)
    (batch : List StorableMessage)
    (hkeys : ∀ s ∈ batch, db.messages.any
      (msgConflict mb (toI32 s.msg.origin) (toI32 s.msg.nonce)) = true) :
    dispatch_count_since_id (batch.foldl (upsertMessage now mb) db) domain mb
      (maxDispatchedId db domain mb) = 0 := by
  obtain ⟨hmap, _⟩ := foldM_update_only now mb batch db hkeys
  rw [dispatch_count_congr _ db domain mb _ hmap]
  exact dispatch_count_self_zero db domain mb

/-- Storing a delivery batch whose head is not yet present yields a positive
recount. -/
theorem delivery_first_count_pos (db : Db) (hwf : WfDb db) (now : Nat) (domain : Nat)
    (mb : List Nat) (s0 : StorableDelivery) (rest : List StorableDelivery)
    (h0 : db.deliveries.any (delConflict (h256_to_bytes s0.message_id)) = false) :
    0 < deliveries_count_since_id
      ((s0 :: rest).foldl (upsertDelivery now domain mb) db) domain mb
      (maxDeliveriesId db domain mb) := by
  have hb := maxDeliveriesId_lt_next db domain mb hwf
  rw [List.foldl_cons]
  have hneg : ¬ db.deliveries.any (delConflict (h256_to_bytes s0.message_id)) = true := by
    rw [h0]
    exact Bool.false_ne_true
  obtain ⟨hm, _⟩ := upsertDelivery_neg now domain mb db s0 hneg
  have hρ : delRowOf db.nextDeliveryId now domain mb s0 ∈
      (upsertDelivery now domain mb db s0).deliveries := by
    rw [hm]
    exact List.mem_append_right _ (List.mem_singleton.mpr rfl)
  obtain ⟨r', hr', he⟩ :=
    foldD_projD_ex now domain mb rest (upsertDelivery now domain mb db s0) _ hρ
  have hid : r'.id = db.nextDeliveryId := congrArg (fun t => t.1) he
  have hdo : r'.domain = toI32 domain := congrArg (fun t => t.2.1) he
  have hmb : r'.destination_mailbox = mb := congrArg (fun t => t.2.2.1) he
  have hpred : (delScope mb (toI32 domain) r' &&
      decide (maxDeliveriesId db domain mb < r'.id)) = true := by
    rw [Bool.and_eq_true]
    constructor
    · unfold delScope
      rw [hdo, hmb, Bool.and_eq_true]
      exact ⟨beq_self_eq_true _, beq_self_eq_true _⟩
    · rw [decide_eq_true_eq, hid]
      exact hb
  unfold deliveries_count_since_id
  rw [List.length_pos]
  exact List.ne_nil_of_mem (List.mem_filter.mpr ⟨hr', hpred⟩)

/-- Re-storing a delivery batch all of whose keys are present yields a zero
recount. -/
theorem delivery_restore_count_zero (db : Db) (now : Nat) (domain : Nat) (mb : List Nat)
    (batch : List StorableDelivery)
    (hkeys : ∀ s ∈ batch, db.deliveries.any
      (delConflict (h256_to_bytes s.message_id)) = true) :
    deliveries_count_since_id (batch.foldl (upsertDelivery now domain mb) db) domain mb
      (maxDeliveriesId db domain mb) = 0 := by
  obtain ⟨hmap, _⟩ := foldD_update_only now domain mb batch db hkeys
  rw [deliveries_count_congr _ db domain mb _ hmap]
  exact deliveries_count_self_zero db domain mb

/-- Unfolding of `store_dispatched_messages` on a non-empty batch. -/
theorem store_dispatched_messages_cons (db : Db) (now : Nat) (domain : Nat)
    (mailbox : Nat) (s0 : StorableMessage) (rest : List StorableMessage) :
    store_dispatched_messages db now domain mailbox (s0 :: rest) =
      some ((s0 :: rest).foldl (upsertMessage now (address_to_bytes mailbox)) db,
        dispatch_count_since_id
          ((s0 :: rest).foldl (upsertMessage now (address_to_bytes mailbox)) db)
          domain (address_to_bytes mailbox)
          (maxDispatchedId db domain (address_to_bytes mailbox))) := rfl

/-- Unfolding of `store_deliveries` on a non-empty batch. -/
theorem store_deliveries_cons (db : Db) (now : Nat) (domain : Nat)
    (mailbox : Nat) (s0 : StorableDelivery) (rest : List StorableDelivery) :
    store_deliveries db now domain mailbox (s0 :: rest) =
      some ((s0 :: rest).foldl
          (upsertDelivery now domain (address_to_bytes mailbox)) db,
        deliveries_count_since_id
          ((s0 :: rest).foldl (upsertDelivery now domain (address_to_bytes mailbox)) db)
          domain (address_to_bytes mailbox)
          (maxDeliveriesId db domain (address_to_bytes mailbox))) := rfl

/-! ## Claim theorems -/

/-- C1: for every non-empty batch of events none of which is already stored,
and with no concurrent writers, `store_dispatched_messages` (resp.
`store_deliveries`) returns `new_count > 0`, and immediately calling it again
with the identical batch returns `new_count == 0`.  (The dispatch events are
events of the given origin domain, as in the spec's example.) -/
theorem C1_store_twice_counts (db : Db) (now1 now2 : Nat) (domain mailbox : Nat)
    (batchM : List StorableMessage) (batchD : List StorableDelivery)
    (hwf : WfDb db) (hMne : batchM ≠ []) (hDne : batchD ≠ [])
    (hMorigin : ∀ s ∈ batchM, s.msg.origin = domain)
    (hMfresh : ∀ s ∈ batchM, db.messages.any
      (msgConflict (address_to_bytes mailbox) (toI32 s.msg.origin) (toI32 s.msg.nonce)) = false)
    (hDfresh : ∀ s ∈ batchD, db.deliveries.any
      (delConflict (h256_to_bytes s.message_id)) = false) :
    (∃ db1 c1 db2 c2,
      store_dispatched_messages db now1 domain mailbox batchM = some (db1, c1) ∧ 0 < c1 ∧
      store_dispatched_messages db1 now2 domain mailbox batchM = some (db2, c2) ∧ c2 = 0) ∧
    (∃ db1 c1 db2 c2,
      store_deliveries db now1 domain mailbox batchD = some (db1, c1) ∧ 0 < c1 ∧
      store_deliveries db1 now2 domain mailbox batchD = some (db2, c2) ∧ c2 = 0) := by
  constructor
  · obtain ⟨s0, rest, rfl⟩ := List.exists_cons_of_ne_nil hMne
    refine ⟨_, _, _, _, store_dispatched_messages_cons db now1 domain mailbox s0 rest,
      ?_, store_dispatched_messages_cons _ now2 domain mailbox s0 rest, ?_⟩
    · exact dispatch_first_count_pos db hwf now1 domain (address_to_bytes mailbox) s0 rest
        (hMfresh s0 (List.mem_cons_self s0 rest)) (hMorigin s0 (List.mem_cons_self s0 rest))
    · exact dispatch_restore_count_zero _ now2 domain (address_to_bytes mailbox) (s0 :: rest)
        (foldM_keys_present now1 (address_to_bytes mailbox) (s0 :: rest) db)
  · obtain ⟨s0, rest, rfl⟩ := List.exists_cons_of_ne_nil hDne
    refine ⟨_, _, _, _, store_deliveries_cons db now1 domain mailbox s0 rest,
      ?_, store_deliveries_cons _ now2 domain mailbox s0 rest, ?_⟩
    · exact delivery_first_count_pos db hwf now1 domain (address_to_bytes mailbox) s0 rest
        (hDfresh s0 (List.mem_cons_self s0 rest))
    · exact delivery_restore_count_zero _ now2 domain (address_to_bytes mailbox) (s0 :: rest)
        (foldD_keys_present now1 domain (address_to_bytes mailbox) (s0 :: rest) db)

/-! ## Round-trip helpers -/

theorem msgKeyFilter_eq_conflict (mb : List Nat) (o n : Int) (r : MessageRow) :
    msgKeyFilter mb o n r = msgConflict mb o n r := by
  unfold msgKeyFilter msgConflict
  cases h1 : (r.origin == o) <;> cases h2 : (r.origin_mailbox == mb) <;>
    cases h3 : (r.nonce == n) <;> simp [h1, h2, h3]

theorem msgConflict_update (mb : List Nat) (o n : Int) (now : Nat) (s : StorableMessage)
    (r : MessageRow) :
    msgConflict mb o n (msgOnConflictUpdate now s r) = msgConflict mb o n r := by
  rw [msgConflict_factor, projM_update, ← msgConflict_factor]

theorem bodyOpt_getD (b : List Nat) : (bodyOpt b).getD [] = b := by
  unfold bodyOpt
  cases b <;> simp

theorem find?_map_comm {α : Type} (f : α → α) (p : α → Bool) (hp : ∀ a, p (f a) = p a)
    (l : List α) : (l.map f).find? p = (l.find? p).map f := by
  induction l with
  | nil => rfl
  | cons a t ih => cases h : p a <;> simp [List.find?_cons, h, hp a, ih]

/-- Reconstruction of the protocol message from a row whose mutable columns
hold the latest stored values for `s` and whose key columns match. -/
theorem retrieve_reconstruct (db1 : Db) (mailbox : Nat) (s : StorableMessage)
    (row : MessageRow)
    (hfind : db1.messages.find? (msgKeyFilter (address_to_bytes mailbox)
      (toI32 s.msg.origin) (toI32 s.msg.nonce)) = some row)
    (hro : row.origin = toI32 s.msg.origin) (hrn : row.nonce = toI32 s.msg.nonce)
    (hrd : row.destination = toI32 s.msg.destination)
    (hrs : row.sender = address_to_bytes s.msg.sender)
    (hrr : row.recipient = address_to_bytes s.msg.recipient)
    (hrb : row.msg_body = bodyOpt s.msg.body)
    (hnonce : s.msg.nonce < 2 ^ 32) (horigin : s.msg.origin < 2 ^ 32)
    (hdest : s.msg.destination < 2 ^ 32)
    (hsender : s.msg.sender < 2 ^ 256) (hrecipient : s.msg.recipient < 2 ^ 256) :
    retrieve_message_by_nonce db1 s.msg.origin mailbox s.msg.nonce =
      Except.ok (some
        { version := 3,
          nonce := s.msg.nonce,
          origin := s.msg.origin,
          sender := s.msg.sender,
          destination := s.msg.destination,
          recipient := s.msg.recipient,
          body := s.msg.body }) := by
  have hstep : retrieve_message_by_nonce db1 s.msg.origin mailbox s.msg.nonce =
      (do
        let sender ← bytes_to_address row.sender
        let recipient ← bytes_to_address row.recipient
        Except.ok (some
          { version := 3,
            nonce := toU32 row.nonce,
            origin := toU32 row.origin,
            sender := sender,
            destination := toU32 row.destination,
            recipient := recipient,
            body := row.msg_body.getD [] })) := by
    unfold retrieve_message_by_nonce
    rw [hfind]
  rw [hstep, hrs, hrr, hro, hrn, hrd, hrb]
  rw [bytes_to_address_address_to_bytes _ hsender,
    bytes_to_address_address_to_bytes _ hrecipient]
  rw [toU32_toI32 _ hnonce, toU32_toI32 _ horigin, toU32_toI32 _ hdest, bodyOpt_getD]
  rfl

/-- C2: a message stored via `store_dispatched_messages` and retrieved with
`retrieve_message_by_nonce` on its `(origin_domain, origin_mailbox, nonce)`
key reproduces origin, destination, nonce, sender, recipient and body
exactly, except that the version field is always populated with the fixed
current protocol version (3) and an empty body round-trips to empty, not
none. -/
theorem C2_store_retrieve_round_trip (db : Db) (now : Nat) (domain mailbox : Nat)
    (s : StorableMessage)
    (hnonce : s.msg.nonce < 2 ^ 32) (horigin : s.msg.origin < 2 ^ 32)
    (hdest : s.msg.destination < 2 ^ 32)
    (hsender : s.msg.sender < 2 ^ 256) (hrecipient : s.msg.recipient < 2 ^ 256) :
    ∃ db1 c1, store_dispatched_messages db now domain mailbox [s] = some (db1, c1) ∧
      retrieve_message_by_nonce db1 s.msg.origin mailbox s.msg.nonce =
        Except.ok (some
          { version := 3,
            nonce := s.msg.nonce,
            origin := s.msg.origin,
            sender := s.msg.sender,
            destination := s.msg.destination,
            recipient := s.msg.recipient,
            body := s.msg.body }) := by
  refine ⟨_, _, store_dispatched_messages_cons db now domain mailbox s [], ?_⟩
  have hfold : ([s].foldl (upsertMessage now (address_to_bytes mailbox)) db) =
      upsertMessage now (address_to_bytes mailbox) db s := rfl
  rw [hfold]
  have hpred : (msgKeyFilter (address_to_bytes mailbox) (toI32 s.msg.origin)
      (toI32 s.msg.nonce)) = (msgConflict (address_to_bytes mailbox) (toI32 s.msg.origin)
      (toI32 s.msg.nonce)) :=
    funext (msgKeyFilter_eq_conflict _ _ _)
  by_cases hc : db.messages.any (msgConflict (address_to_bytes mailbox)
      (toI32 s.msg.origin) (toI32 s.msg.nonce)) = true
  · -- the key already exists: the conflicting row is updated in place
    obtain ⟨hm, _⟩ := upsertMessage_pos now (address_to_bytes mailbox) db s hc
    obtain ⟨r0, hr0⟩ := Option.isSome_iff_exists.mp (List.find?_isSome.mpr
      (List.any_eq_true.mp hc))
    have hp0 : msgConflict (address_to_bytes mailbox) (toI32 s.msg.origin)
        (toI32 s.msg.nonce) r0 = true := List.find?_some hr0
    have hfind : (upsertMessage now (address_to_bytes mailbox) db s).messages.find?
        (msgKeyFilter (address_to_bytes mailbox) (toI32 s.msg.origin) (toI32 s.msg.nonce)) =
        some (msgOnConflictUpdate now s r0) := by
      rw [hm, hpred]
      rw [find?_map_comm _ _ ?_ db.messages]
      · rw [hr0]
        simp [hp0]
      · intro a
        by_cases ha : msgConflict (address_to_bytes mailbox) (toI32 s.msg.origin)
            (toI32 s.msg.nonce) a = true
        · simp [ha, msgConflict_update]
        · simp [ha]
    have hkey := hp0
    unfold msgConflict at hkey
    rw [Bool.and_eq_true, Bool.and_eq_true] at hkey
    obtain ⟨⟨hk1, hk2⟩, hk3⟩ := hkey
    refine retrieve_reconstruct _ mailbox s _ hfind ?_ ?_ rfl rfl rfl rfl
      hnonce horigin hdest hsender hrecipient
    · simpa using beq_iff_eq.mp hk2
    · simpa using beq_iff_eq.mp hk3
  · -- fresh key: a new row is appended
    obtain ⟨hm, _⟩ := upsertMessage_neg now (address_to_bytes mailbox) db s hc
    have hnone : db.messages.find? (msgConflict (address_to_bytes mailbox)
        (toI32 s.msg.origin) (toI32 s.msg.nonce)) = none := by
      rw [List.find?_eq_none]
      intro a ha hpa
      exact hc (List.any_eq_true.mpr ⟨a, ha, hpa⟩)
    have hfind : (upsertMessage now (address_to_bytes mailbox) db s).messages.find?
        (msgKeyFilter (address_to_bytes mailbox) (toI32 s.msg.origin) (toI32 s.msg.nonce)) =
        some (msgRowOf db.nextMessageId now (address_to_bytes mailbox) s) := by
      rw [hm, hpred, List.find?_append, hnone]
      simp [msgConflict, msgRowOf]
    exact retrieve_reconstruct _ mailbox s _ hfind rfl rfl rfl rfl rfl rfl
      hnonce horigin hdest hsender hrecipient

/-- C4: the batch upsert of `store_dispatched_messages` writes the
conflict-key columns `(origin_mailbox, origin, nonce)` only on first
insertion and on conflict overwrites exactly `time_created, destination,
sender, recipient, msg_body, origin_tx_id`: storing two messages with the
same key but (possibly) different contents leaves exactly one stored row for
that key, carrying the first write's key columns and `msg_id` and the second
write's mutable columns. -/
theorem C4_natural_key_single_row (db : Db) (now1 now2 : Nat) (domain mailbox : Nat)
    (s1 s2 : StorableMessage)
    (hkey_o : s2.msg.origin = s1.msg.origin) (hkey_n : s2.msg.nonce = s1.msg.nonce)
    (hfresh : db.messages.any (msgConflict (address_to_bytes mailbox)
      (toI32 s1.msg.origin) (toI32 s1.msg.nonce)) = false) :
    ∃ db1 c1 db2 c2,
      store_dispatched_messages db now1 domain mailbox [s1] = some (db1, c1) ∧
      store_dispatched_messages db1 now2 domain mailbox [s2] = some (db2, c2) ∧
      db2.messages.filter (msgConflict (address_to_bytes mailbox)
        (toI32 s1.msg.origin) (toI32 s1.msg.nonce)) =
        [{ id := db.nextMessageId,
           timeCreated := now2,
           msg_id := h256_to_bytes (msgIdOf s1.msg),
           origin := toI32 s1.msg.origin,
           destination := toI32 s2.msg.destination,
           nonce := toI32 s1.msg.nonce,
           sender := address_to_bytes s2.msg.sender,
           recipient := address_to_bytes s2.msg.recipient,
           msg_body := bodyOpt s2.msg.body,
           origin_mailbox := address_to_bytes mailbox,
           origin_tx_id := s2.txn_id }] := by
  refine ⟨_, _, _, _, store_dispatched_messages_cons db now1 domain mailbox s1 [],
    store_dispatched_messages_cons _ now2 domain mailbox s2 [], ?_⟩
  have ho : toI32 s2.msg.origin = toI32 s1.msg.origin := by rw [hkey_o]
  have hn : toI32 s2.msg.nonce = toI32 s1.msg.nonce := by rw [hkey_n]
  have hfold1 : ([s1].foldl (upsertMessage now1 (address_to_bytes mailbox)) db) =
      upsertMessage now1 (address_to_bytes mailbox) db s1 := rfl
  have hneg1 : ¬ db.messages.any (msgConflict (address_to_bytes mailbox)
      (toI32 s1.msg.origin) (toI32 s1.msg.nonce)) = true := by
    rw [hfresh]
    exact Bool.false_ne_true
  obtain ⟨hm1, _⟩ := upsertMessage_neg now1 (address_to_bytes mailbox) db s1 hneg1
  have hρ1 : msgConflict (address_to_bytes mailbox) (toI32 s1.msg.origin) (toI32 s1.msg.nonce)
      (msgRowOf db.nextMessageId now1 (address_to_bytes mailbox) s1) = true := by
    simp [msgConflict, msgRowOf]
  have hc2 : (upsertMessage now1 (address_to_bytes mailbox) db s1).messages.any
      (msgConflict (address_to_bytes mailbox) (toI32 s2.msg.origin) (toI32 s2.msg.nonce)) =
      true := by
    rw [ho, hn, hm1, List.any_append]
    simp [hρ1]
  obtain ⟨hm2, _⟩ :=
    upsertMessage_pos now2 (address_to_bytes mailbox)
      (upsertMessage now1 (address_to_bytes mailbox) db s1) s2 hc2
  have hfold2 : ([s2].foldl (upsertMessage now2 (address_to_bytes mailbox))
      (upsertMessage now1 (address_to_bytes mailbox) db s1)) =
      upsertMessage now2 (address_to_bytes mailbox)
        (upsertMessage now1 (address_to_bytes mailbox) db s1) s2 := rfl
  rw [hfold1, hfold2, hm2, hm1, List.map_append, List.filter_append]
  have hold : (db.messages.map (fun r => if msgConflict (address_to_bytes mailbox)
      (toI32 s2.msg.origin) (toI32 s2.msg.nonce) r then msgOnConflictUpdate now2 s2 r
      else r)).filter (msgConflict (address_to_bytes mailbox) (toI32 s1.msg.origin)
      (toI32 s1.msg.nonce)) = [] := by
    rw [List.filter_eq_nil_iff]
    intro a ha
    obtain ⟨r, hrmem, hre⟩ := List.mem_map.mp ha
    have hfr : ¬ msgConflict (address_to_bytes mailbox) (toI32 s1.msg.origin)
        (toI32 s1.msg.nonce) r = true :=
      (List.any_eq_false.mp hfresh) r hrmem
    subst hre
    by_cases hcr : msgConflict (address_to_bytes mailbox) (toI32 s2.msg.origin)
        (toI32 s2.msg.nonce) r = true
    · rw [if_pos hcr, msgConflict_update]
      exact hfr
    · rw [if_neg hcr]
      exact hfr
  rw [hold, List.nil_append]
  have hguard : msgConflict (address_to_bytes mailbox) (toI32 s2.msg.origin)
      (toI32 s2.msg.nonce) (msgRowOf db.nextMessageId now1 (address_to_bytes mailbox) s1) =
      true := by
    rw [ho, hn]
    exact hρ1
  have hkeep : msgConflict (address_to_bytes mailbox) (toI32 s1.msg.origin)
      (toI32 s1.msg.nonce) (msgOnConflictUpdate now2 s2
        (msgRowOf db.nextMessageId now1 (address_to_bytes mailbox) s1)) = true := by
    rw [msgConflict_update]
    exact hρ1
  rw [List.map_singleton, if_pos hguard, List.filter_singleton, hkeep]
  rfl

/-- C9: on conflict during `store_dispatched_messages`, the `msg_id` column
is not among the refreshed columns: re-ingesting an existing
`(origin_mailbox, origin, nonce)` key overwrites `destination, sender,
recipient, msg_body, origin_tx_id` (and `time_created`) but leaves the stored
`msg_id` unchanged — so after re-ingestion with different content the stored
`msg_id` need not equal the content-derived identifier of the row's current
field values. -/
theorem C9_msg_id_frame (db : Db) (now : Nat) (domain mailbox : Nat)
    (s : StorableMessage) (r : MessageRow) (hr : r ∈ db.messages)
    (hconf : msgConflict (address_to_bytes mailbox) (toI32 s.msg.origin)
      (toI32 s.msg.nonce) r = true) :
    ∃ db1 c1, store_dispatched_messages db now domain mailbox [s] = some (db1, c1) ∧
      ∃ r' ∈ db1.messages, r'.id = r.id ∧ r'.msg_id = r.msg_id ∧
        r'.destination = toI32 s.msg.destination ∧
        r'.sender = address_to_bytes s.msg.sender ∧
        r'.recipient = address_to_bytes s.msg.recipient ∧
        r'.msg_body = bodyOpt s.msg.body ∧
        r'.origin_tx_id = s.txn_id ∧ r'.timeCreated = now := by
  refine ⟨_, _, store_dispatched_messages_cons db now domain mailbox s [], ?_⟩
  have hc : db.messages.any (msgConflict (address_to_bytes mailbox) (toI32 s.msg.origin)
      (toI32 s.msg.nonce)) = true := List.any_eq_true.mpr ⟨r, hr, hconf⟩
  obtain ⟨hm, _⟩ := upsertMessage_pos now (address_to_bytes mailbox) db s hc
  have hfold : ([s].foldl (upsertMessage now (address_to_bytes mailbox)) db) =
      upsertMessage now (address_to_bytes mailbox) db s := rfl
  refine ⟨msgOnConflictUpdate now s r, ?_, rfl, rfl, rfl, rfl, rfl, rfl, rfl, rfl⟩
  rw [hfold, hm]
  have : (fun r0 => if msgConflict (address_to_bytes mailbox) (toI32 s.msg.origin)
      (toI32 s.msg.nonce) r0 then msgOnConflictUpdate now s r0 else r0) r =
      msgOnConflictUpdate now s r := if_pos hconf
  rw [← this]
  exact List.mem_map_of_mem _ hr

theorem delConflict_update (mid : List Nat) (now : Nat) (s : StorableDelivery)
    (r : DeliveredRow) :
    delConflict mid (delOnConflictUpdate now s r) = delConflict mid r := by
  rw [delConflict_factor, projD_update, ← delConflict_factor]

/-- C5: storing a delivery for `msg_id = X` and then re-storing the same
`msg_id` with a different transaction id (same domain and mailbox, no
concurrent writers) yields `new_count == 0` on the second call while leaving
exactly one delivery row for `X`, whose `destination_tx_id` is updated to the
new value; the conflict key is `msg_id` alone and only `created_at` and
`destination_tx_id` are refreshed on conflict. -/
theorem C5_delivery_reingest (db : Db) (now1 now2 : Nat) (domain mailbox : Nat)
    (x : Nat) (t1 t2 : Int)
    (hfresh : db.deliveries.any (delConflict (h256_to_bytes x)) = false) :
    ∃ db1 c1 db2 c2,
      store_deliveries db now1 domain mailbox [⟨x, t1⟩] = some (db1, c1) ∧
      store_deliveries db1 now2 domain mailbox [⟨x, t2⟩] = some (db2, c2) ∧
      c2 = 0 ∧
      db2.deliveries.filter (delConflict (h256_to_bytes x)) =
        [{ id := db.nextDeliveryId,
           timeCreated := now2,
           msg_id := h256_to_bytes x,
           domain := toI32 domain,
           destination_mailbox := address_to_bytes mailbox,
           destination_tx_id := t2 }] := by
  refine ⟨_, _, _, _, store_deliveries_cons db now1 domain mailbox ⟨x, t1⟩ [],
    store_deliveries_cons _ now2 domain mailbox ⟨x, t2⟩ [], ?_, ?_⟩
  · -- second recount is zero: the key is already present after the first store
    refine delivery_restore_count_zero _ now2 domain (address_to_bytes mailbox) _ ?_
    intro s hs
    rcases List.mem_singleton.mp hs with rfl
    exact foldD_keys_present now1 domain (address_to_bytes mailbox)
      [⟨x, t1⟩] db ⟨x, t1⟩ (List.mem_singleton.mpr rfl)
  · -- exactly one row for the key, holding the second write's mutable columns
    have hfold1 : ([(⟨x, t1⟩ : StorableDelivery)].foldl
        (upsertDelivery now1 domain (address_to_bytes mailbox)) db) =
        upsertDelivery now1 domain (address_to_bytes mailbox) db ⟨x, t1⟩ := rfl
    have hneg1 : ¬ db.deliveries.any (delConflict (h256_to_bytes x)) = true := by
      rw [hfresh]
      exact Bool.false_ne_true
    obtain ⟨hm1, _⟩ := upsertDelivery_neg now1 domain (address_to_bytes mailbox) db ⟨x, t1⟩ hneg1
    have hρ1 : delConflict (h256_to_bytes x)
        (delRowOf db.nextDeliveryId now1 domain (address_to_bytes mailbox) ⟨x, t1⟩) = true := by
      simp [delConflict, delRowOf]
    have hc2 : (upsertDelivery now1 domain (address_to_bytes mailbox) db ⟨x, t1⟩).deliveries.any
        (delConflict (h256_to_bytes x)) = true := by
      rw [hm1, List.any_append]
      simp [hρ1]
    obtain ⟨hm2, _⟩ := upsertDelivery_pos now2 domain (address_to_bytes mailbox)
      (upsertDelivery now1 domain (address_to_bytes mailbox) db ⟨x, t1⟩) ⟨x, t2⟩ hc2
    have hfold2 : ([(⟨x, t2⟩ : StorableDelivery)].foldl
        (upsertDelivery now2 domain (address_to_bytes mailbox))
        (upsertDelivery now1 domain (address_to_bytes mailbox) db ⟨x, t1⟩)) =
        upsertDelivery now2 domain (address_to_bytes mailbox)
          (upsertDelivery now1 domain (address_to_bytes mailbox) db ⟨x, t1⟩) ⟨x, t2⟩ := rfl
    rw [hfold1, hfold2, hm2, hm1, List.map_append, List.filter_append]
    have hold : (db.deliveries.map (fun r => if delConflict (h256_to_bytes x) r then
        delOnConflictUpdate now2 ⟨x, t2⟩ r else r)).filter
        (delConflict (h256_to_bytes x)) = [] := by
      rw [List.filter_eq_nil_iff]
      intro a ha
      obtain ⟨r, hrmem, hre⟩ := List.mem_map.mp ha
      have hfr : ¬ delConflict (h256_to_bytes x) r = true :=
        (List.any_eq_false.mp hfresh) r hrmem
      subst hre
      by_cases hcr : delConflict (h256_to_bytes x) r = true
      · rw [if_pos hcr, delConflict_update]
        exact hfr
      · rw [if_neg hcr]
        exact hfr
    rw [hold, List.nil_append]
    have hkeep : delConflict (h256_to_bytes x) (delOnConflictUpdate now2 ⟨x, t2⟩
        (delRowOf db.nextDeliveryId now1 domain (address_to_bytes mailbox) ⟨x, t1⟩)) = true := by
      rw [delConflict_update]
      exact hρ1
    rw [List.map_singleton, if_pos hρ1, List.filter_singleton, hkeep]
    rfl

/-! ## The signed maximum taken by `last_message_nonce` -/

theorem maxInt?_isSome (l : List Int) (h : l ≠ []) : ∃ m, maxInt? l = some m := by
  cases l with
  | nil => exact absurd rfl h
  | cons a t => exact ⟨t.foldl max a, rfl⟩

theorem maxNat?_isSome (l : List Nat) (h : l ≠ []) : ∃ m, maxNat? l = some m := by
  cases l with
  | nil => exact absurd rfl h
  | cons a t => exact ⟨t.foldl max a, rfl⟩

theorem lmn_as_rows (db : Db) (d mb : Nat) :
    last_message_nonce db d mb =
      (maxInt? ((nonceRows db d mb).map (·.nonce))).map toU32 := rfl

/-- In the all-non-negative in-range case, the signed maximum commutes with
the bit-cast back to unsigned. -/
theorem maxInt?_toU32_comm (l : List Int) (h : ∀ x ∈ l, 0 ≤ x ∧ x < 2 ^ 31) :
    (maxInt? l).map toU32 = maxNat? (l.map toU32) := by
  cases l with
  | nil => rfl
  | cons a t =>
    obtain ⟨m, hm⟩ := maxInt?_isSome (a :: t) (by simp)
    obtain ⟨u, hu⟩ := maxNat?_isSome ((a :: t).map toU32) (by simp)
    rw [hm, hu, Option.map_some']
    have hmmem := maxInt?_mem _ m hm
    have hmle := le_maxInt? _ m hm
    have hule := le_maxNat? _ u hu
    have hmb := h m hmmem
    congr 1
    apply le_antisymm
    · exact hule (toU32 m) (List.mem_map_of_mem _ hmmem)
    · obtain ⟨x, hx, hxe⟩ := List.mem_map.mp (maxNat?_mem _ u hu)
      have hxb := h x hx
      calc u = toU32 x := hxe.symm
        _ ≤ toU32 m := toU32_mono x m hxb.1 (by omega) (hmle x hx)

/-- When every stored nonce for the scope is a non-negative i32 below `2^31`,
`last_message_nonce` computes the true (unsigned) maximum. -/
theorem lmn_eq_trueMax (db : Db) (d mb : Nat)
    (h : ∀ r ∈ nonceRows db d mb, 0 ≤ r.nonce ∧ r.nonce < 2 ^ 31) :
    last_message_nonce db d mb = trueMaxNonce db d mb := by
  rw [lmn_as_rows]
  unfold trueMaxNonce
  rw [maxInt?_toU32_comm _ ?_]
  · rw [List.map_map]
    rfl
  · intro x hx
    obtain ⟨r, hr, hre⟩ := List.mem_map.mp hx
    rw [← hre]
    exact h r hr

theorem lmn_none_iff (db : Db) (d mb : Nat) :
    last_message_nonce db d mb = none ↔ nonceRows db d mb = [] := by
  rw [lmn_as_rows, Option.map_eq_none', maxInt?_eq_none_iff, List.map_eq_nil_iff]

/-- When the scope holds nonces on both sides of the signed 32-bit boundary,
the value returned by `last_message_nonce` is not the true maximum. -/
theorem lmn_ne_trueMax_of_mixed (db : Db) (d mb : Nat) (r1 r2 : MessageRow)
    (h1 : r1 ∈ nonceRows db d mb) (h2 : r2 ∈ nonceRows db d mb)
    (hall : ∀ r ∈ nonceRows db d mb, -(2 ^ 31) ≤ r.nonce ∧ r.nonce < 2 ^ 31)
    (hneg : r1.nonce < 0) (hpos : 0 ≤ r2.nonce) :
    last_message_nonce db d mb ≠ trueMaxNonce db d mb := by
  rw [lmn_as_rows]
  unfold trueMaxNonce
  have hne : (nonceRows db d mb).map (·.nonce) ≠ ([] : List Int) := by
    intro hcon
    rw [List.map_eq_nil_iff] at hcon
    rw [hcon] at h1
    cases h1
  obtain ⟨m, hm⟩ := maxInt?_isSome _ hne
  have hne2 : (nonceRows db d mb).map (fun r => toU32 r.nonce) ≠ ([] : List Nat) := by
    intro hcon
    rw [List.map_eq_nil_iff] at hcon
    rw [hcon] at h1
    cases h1
  obtain ⟨t, ht⟩ := maxNat?_isSome _ hne2
  rw [hm, ht, Option.map_some']
  intro hcon
  have hmt : toU32 m = t := Option.some.injEq _ _ ▸ hcon
  have hm2 : r2.nonce ≤ m := le_maxInt? _ m hm r2.nonce (List.mem_map_of_mem _ h2)
  obtain ⟨rm, hrmm, hrme⟩ := List.mem_map.mp (maxInt?_mem _ m hm)
  have hmlt : m < 2 ^ 31 := by
    have := hall rm hrmm
    omega
  have h0m : 0 ≤ m := le_trans hpos hm2
  have hsmall : toU32 m < 2 ^ 31 := by
    have := toU32_of_nonneg m h0m (by omega)
    omega
  have hbig : 2 ^ 31 ≤ t := by
    have hmem : toU32 r1.nonce ∈ (nonceRows db d mb).map (fun r => toU32 r.nonce) :=
      List.mem_map_of_mem _ h1
    have hle := le_maxNat? _ t ht _ hmem
    have hge := toU32_neg_ge r1.nonce (hall r1 h1).1 hneg
    omega
  omega

theorem find?_eq_head?_filter {α : Type} (p : α → Bool) (l : List α) :
    l.find? p = (l.filter p).head? := by
  induction l with
  | nil => rfl
  | cons a t ih =>
    cases h : p a with
    | true => rw [List.find?_cons_of_pos _ h, List.filter_cons_of_pos h]; rfl
    | false =>
      have h' : ¬ p a = true := by rw [h]; exact Bool.false_ne_true
      rw [List.find?_cons_of_neg _ h', List.filter_cons_of_neg h']
      exact ih

/-- C3 (amended): `last_message_nonce` returns `none` exactly when no row
matches the `(origin_domain, origin_mailbox)` pair, and returns the maximum
stored nonce provided every stored nonce for that pair is below `2^31` (the
maximum is taken in signed 32-bit order); in particular after storing nonces
`{0,1,2}` it returns 2, and on an empty scope it returns `none`. -/
theorem C3_highest_nonce (db : Db) (d mb : Nat) :
    (last_message_nonce db d mb = none ↔ nonceRows db d mb = []) ∧
    ((∀ r ∈ nonceRows db d mb, 0 ≤ r.nonce ∧ r.nonce < 2 ^ 31) →
      last_message_nonce db d mb = trueMaxNonce db d mb) ∧
    (store_dispatched_messages emptyDb 0 7 5 nonces012batch).isSome = true ∧
    last_message_nonce nonces012db 7 5 = some 2 ∧
    last_message_nonce emptyDb 7 5 = none :=
  ⟨lmn_none_iff db d mb, lmn_eq_trueMax db d mb, by decide, by decide, by decide⟩

/-- C3 witness: on the `{0,1,2}` store the conditional part of the amended
claim applies and gives the true maximum. -/
theorem C3_highest_nonce_witness :
    last_message_nonce nonces012db 7 5 = trueMaxNonce nonces012db 7 5 :=
  (C3_highest_nonce nonces012db 7 5).2.1 (by decide)

/-- C3 counterexample: after storing nonces `{1, 2^31}` (both reachable
through `store_dispatched_messages`), `last_message_nonce` returns 1, not the
maximum stored nonce `2^31` — refuting the claim that it always returns the
maximum nonce among the matching rows. -/
theorem C3_highest_nonce_counterexample :
    (store_dispatched_messages emptyDb 0 7 5 mixedNonceBatch).isSome = true ∧
    (2 ^ 31 : Nat) ∈ (nonceRows mixedNonceDb 7 5).map (fun r => toU32 r.nonce) ∧
    last_message_nonce mixedNonceDb 7 5 = some 1 ∧
    trueMaxNonce mixedNonceDb 7 5 = some (2 ^ 31) ∧
    last_message_nonce mixedNonceDb 7 5 ≠ trueMaxNonce mixedNonceDb 7 5 := by
  decide

/-- C10 (amended): nonces are stored by bit-casting u32 to i32 and
`last_message_nonce` takes the maximum under signed i32 ordering before
bit-casting back; the cast round-trips every individual value exactly; the
signed maximum is the true (unsigned) maximum whenever every stored nonce for
the pair is `< 2^31`, and differs from it whenever the scope holds nonces on
both sides of the `2^31` boundary. -/
theorem C10_signed_nonce_max :
    (∀ n : Nat, n < 2 ^ 32 → toU32 (toI32 n) = n) ∧
    (∀ db d mb, (∀ r ∈ nonceRows db d mb, 0 ≤ r.nonce ∧ r.nonce < 2 ^ 31) →
      last_message_nonce db d mb = trueMaxNonce db d mb) ∧
    (∀ db d mb, ∀ r1 ∈ nonceRows db d mb, ∀ r2 ∈ nonceRows db d mb,
      (∀ r ∈ nonceRows db d mb, -(2 ^ 31) ≤ r.nonce ∧ r.nonce < 2 ^ 31) →
      r1.nonce < 0 → 0 ≤ r2.nonce →
      last_message_nonce db d mb ≠ trueMaxNonce db d mb) :=
  ⟨toU32_toI32,
   fun db d mb => lmn_eq_trueMax db d mb,
   fun db d mb r1 h1 r2 h2 hall hneg hpos =>
     lmn_ne_trueMax_of_mixed db d mb r1 r2 h1 h2 hall hneg hpos⟩

/-- C10 witness: the cast round-trips 5; the all-below-`2^31` case returns
the true maximum on the `{0,1,2}` store; the mixed `{1, 2^31}` store
diverges. -/
theorem C10_signed_nonce_max_witness :
    toU32 (toI32 5) = 5 ∧
    last_message_nonce emptyDb 7 5 = trueMaxNonce emptyDb 7 5 ∧
    last_message_nonce mixedNonceDb 7 5 ≠ trueMaxNonce mixedNonceDb 7 5 :=
  ⟨C10_signed_nonce_max.1 5 (by decide),
   C10_signed_nonce_max.2.1 emptyDb 7 5 (by decide),
   C10_signed_nonce_max.2.2 mixedNonceDb 7 5
     ((nonceRows mixedNonceDb 7 5).getD 1 dummyRow) (by decide)
     ((nonceRows mixedNonceDb 7 5).getD 0 dummyRow) (by decide)
     (by decide) (by decide) (by decide)⟩

/-- C10 counterexample: the scope `{2^31}` contains a nonce `≥ 2^31`, yet the
signed maximum equals the unsigned maximum (`last_message_nonce` returns the
true maximum `2^31`) — refuting "whenever the stored set contains any nonce
`≥ 2^31` the signed maximum differs from the unsigned maximum". -/
theorem C10_signed_nonce_max_counterexample :
    (store_dispatched_messages emptyDb 0 7 5 highNonceBatch).isSome = true ∧
    (∃ r ∈ nonceRows highNonceDb 7 5, 2 ^ 31 ≤ toU32 r.nonce) ∧
    last_message_nonce highNonceDb 7 5 = some (2 ^ 31) ∧
    last_message_nonce highNonceDb 7 5 = trueMaxNonce highNonceDb 7 5 := by
  decide

/-- C6: the watermark baseline queries return `Except.ok` of the maximum
matching row id, 0 when the matching set is empty — never an error merely
because the filtered set is empty (in this pure model the underlying query
itself cannot fail, and the error branch is provably dead). -/
theorem C6_watermark_baseline (db : Db) (d : Nat) (mb : List Nat) :
    latest_dispatched_id db d mb = Except.ok (maxDispatchedId db d mb) ∧
    latest_deliveries_id db d mb = Except.ok (maxDeliveriesId db d mb) ∧
    (db.messages.filter (msgScope mb (toI32 d)) = [] → maxDispatchedId db d mb = 0) ∧
    (db.deliveries.filter (delScope mb (toI32 d)) = [] → maxDeliveriesId db d mb = 0) ∧
    (∀ r ∈ db.messages.filter (msgScope mb (toI32 d)), r.id ≤ maxDispatchedId db d mb) ∧
    (∀ r ∈ db.deliveries.filter (delScope mb (toI32 d)), r.id ≤ maxDeliveriesId db d mb) ∧
    (db.messages.filter (msgScope mb (toI32 d)) ≠ [] →
      maxDispatchedId db d mb ∈ (db.messages.filter (msgScope mb (toI32 d))).map (·.id)) ∧
    (db.deliveries.filter (delScope mb (toI32 d)) ≠ [] →
      maxDeliveriesId db d mb ∈ (db.deliveries.filter (delScope mb (toI32 d))).map (·.id)) := by
  refine ⟨rfl, rfl, ?_, ?_, ?_, ?_, ?_, ?_⟩
  · intro h
    unfold maxDispatchedId
    rw [h]
    rfl
  · intro h
    unfold maxDeliveriesId
    rw [h]
    rfl
  · intro r hr
    unfold maxDispatchedId
    cases hm : maxInt? ((db.messages.filter (msgScope mb (toI32 d))).map (·.id)) with
    | none =>
      rw [maxInt?_eq_none_iff, List.map_eq_nil_iff] at hm
      rw [hm] at hr
      cases hr
    | some m =>
      exact le_maxInt? _ m hm r.id (List.mem_map_of_mem _ hr)
  · intro r hr
    unfold maxDeliveriesId
    cases hm : maxInt? ((db.deliveries.filter (delScope mb (toI32 d))).map (·.id)) with
    | none =>
      rw [maxInt?_eq_none_iff, List.map_eq_nil_iff] at hm
      rw [hm] at hr
      cases hr
    | some m =>
      exact le_maxInt? _ m hm r.id (List.mem_map_of_mem _ hr)
  · intro h
    unfold maxDispatchedId
    cases hm : maxInt? ((db.messages.filter (msgScope mb (toI32 d))).map (·.id)) with
    | none =>
      rw [maxInt?_eq_none_iff, List.map_eq_nil_iff] at hm
      exact absurd hm h
    | some m =>
      exact maxInt?_mem _ m hm
  · intro h
    unfold maxDeliveriesId
    cases hm : maxInt? ((db.deliveries.filter (delScope mb (toI32 d))).map (·.id)) with
    | none =>
      rw [maxInt?_eq_none_iff, List.map_eq_nil_iff] at hm
      exact absurd hm h
    | some m =>
      exact maxInt?_mem _ m hm

/-- C6 witness: on the empty store both baselines are `Except.ok 0`. -/
theorem C6_watermark_baseline_witness :
    latest_dispatched_id emptyDb 7 (address_to_bytes 5) = Except.ok 0 ∧
    latest_deliveries_id emptyDb 7 (address_to_bytes 5) = Except.ok 0 := by
  have h := C6_watermark_baseline emptyDb 7 (address_to_bytes 5)
  exact ⟨by rw [h.1]; rfl, by rw [h.2.1]; rfl⟩

/-- C7: both store operations require a non-empty batch — the empty batch is
a violated invariant (the `debug_assert!`, modelled as `none`), never a
recoverable error result or a silently accepted no-op; under the non-empty
precondition the assertion never fires. -/
theorem C7_empty_batch_invariant (db : Db) (now domain mailbox : Nat)
    (batchM : List StorableMessage) (batchD : List StorableDelivery) :
    (store_dispatched_messages db now domain mailbox batchM = none ↔ batchM = []) ∧
    (store_deliveries db now domain mailbox batchD = none ↔ batchD = []) := by
  constructor
  · cases batchM with
    | nil => simp [store_dispatched_messages]
    | cons s t => simp [store_dispatched_messages]
  · cases batchD with
    | nil => simp [store_deliveries]
    | cons s t => simp [store_deliveries]

/-- C8: `retrieve_dispatched_tx_id`, computed as a maximum aggregate of
`origin_tx_id` over the key-filtered rows, agrees with a direct unique point
lookup whenever the natural-key uniqueness invariant holds (at most one
matching row), and returns `none` when no row matches. -/
theorem C8_tx_id_aggregate_eq_point_lookup (db : Db) (d mb n : Nat)
    (huniq : (db.messages.filter (msgKeyFilter (address_to_bytes mb) (toI32 d)
      (toI32 n))).length ≤ 1) :
    retrieve_dispatched_tx_id db d mb n = dispatchTxIdPointLookup db d mb n ∧
    (db.messages.filter (msgKeyFilter (address_to_bytes mb) (toI32 d) (toI32 n)) = [] →
      retrieve_dispatched_tx_id db d mb n = none) := by
  unfold retrieve_dispatched_tx_id dispatchTxIdPointLookup
  rw [find?_eq_head?_filter]
  cases hf : db.messages.filter (msgKeyFilter (address_to_bytes mb) (toI32 d) (toI32 n)) with
  | nil => exact ⟨rfl, fun _ => rfl⟩
  | cons r rest =>
    rw [hf] at huniq
    cases rest with
    | nil => exact ⟨rfl, by simp⟩
    | cons r2 rest2 => simp at huniq

/-- C8 witness: on the store holding the nonce-5 and nonce-6 example rows the
aggregate and the point lookup agree. -/
theorem C8_tx_id_witness :
    retrieve_dispatched_tx_id exDbM 7 5 5 = dispatchTxIdPointLookup exDbM 7 5 5 :=
  (C8_tx_id_aggregate_eq_point_lookup exDbM 7 5 5 (by decide)).1

/-- C1 witness: the spec's example batch (nonces 5 and 6) and a one-delivery
batch on a fresh store. -/
theorem C1_store_twice_counts_witness :
    (∃ db1 c1 db2 c2,
      store_dispatched_messages emptyDb 10 7 5 exBatchM = some (db1, c1) ∧ 0 < c1 ∧
      store_dispatched_messages db1 11 7 5 exBatchM = some (db2, c2) ∧ c2 = 0) ∧
    (∃ db1 c1 db2 c2,
      store_deliveries emptyDb 10 7 5 exBatchD = some (db1, c1) ∧ 0 < c1 ∧
      store_deliveries db1 11 7 5 exBatchD = some (db2, c2) ∧ c2 = 0) :=
  C1_store_twice_counts emptyDb 10 11 7 5 exBatchM exBatchD (by decide) (by decide)
    (by decide) (by decide) (by decide) (by decide)

/-- C2 witness: storing the nonce-5 example message on a fresh store and
reading it back reproduces every field (version fixed at 3). -/
theorem C2_store_retrieve_round_trip_witness :
    ∃ db1 c1,
      store_dispatched_messages emptyDb 10 7 5 [⟨mkMsg 5 [1, 2], 100⟩] = some (db1, c1) ∧
      retrieve_message_by_nonce db1 7 5 5 =
        Except.ok (some
          { version := 3,
            nonce := 5,
            origin := 7,
            sender := 11,
            destination := 9,
            recipient := 13,
            body := [1, 2] }) :=
  C2_store_retrieve_round_trip emptyDb 10 7 5 ⟨mkMsg 5 [1, 2], 100⟩ (by decide) (by decide)
    (by decide) (by decide) (by decide)

/-- C4 witness: two writes of the nonce-5 key with different bodies leave one
row carrying the first write's key/`msg_id` and the second write's mutable
columns. -/
theorem C4_natural_key_single_row_witness :
    ∃ db1 c1 db2 c2,
      store_dispatched_messages emptyDb 10 7 5 [⟨mkMsg 5 [1, 2], 100⟩] = some (db1, c1) ∧
      store_dispatched_messages db1 11 7 5 [⟨mkMsg 5 [7], 200⟩] = some (db2, c2) ∧
      db2.messages.filter (msgConflict (address_to_bytes 5) (toI32 7) (toI32 5)) =
        [{ id := 1,
           timeCreated := 11,
           msg_id := h256_to_bytes (msgIdOf (mkMsg 5 [1, 2])),
           origin := toI32 7,
           destination := toI32 9,
           nonce := toI32 5,
           sender := address_to_bytes 11,
           recipient := address_to_bytes 13,
           msg_body := bodyOpt [7],
           origin_mailbox := address_to_bytes 5,
           origin_tx_id := 200 }] :=
  C4_natural_key_single_row emptyDb 10 11 7 5 ⟨mkMsg 5 [1, 2], 100⟩ ⟨mkMsg 5 [7], 200⟩
    rfl rfl (by decide)

/-- C5 witness: delivery for `msg_id = 12345` stored with tx 200 then
re-stored with tx 201: second count is 0, one row remains, tx updated. -/
theorem C5_delivery_reingest_witness :
    ∃ db1 c1 db2 c2,
      store_deliveries emptyDb 10 9 77 [⟨12345, 200⟩] = some (db1, c1) ∧
      store_deliveries db1 11 9 77 [⟨12345, 201⟩] = some (db2, c2) ∧
      c2 = 0 ∧
      db2.deliveries.filter (delConflict (h256_to_bytes 12345)) =
        [{ id := 1,
           timeCreated := 11,
           msg_id := h256_to_bytes 12345,
           domain := toI32 9,
           destination_mailbox := address_to_bytes 77,
           destination_tx_id := 201 }] :=
  C5_delivery_reingest emptyDb 10 11 9 77 12345 200 201 (by decide)

/-- C7 witness: the empty batch trips the invariant on a fresh store. -/
theorem C7_empty_batch_invariant_witness :
    store_dispatched_messages emptyDb 0 7 5 [] = none ∧
    store_deliveries emptyDb 0 7 5 ([] : List StorableDelivery) = none := by
  have h := C7_empty_batch_invariant emptyDb 0 7 5 [] ([] : List StorableDelivery)
  exact ⟨h.1.mpr rfl, h.2.mpr rfl⟩

/-- C9 witness: re-ingesting the stored nonce-5 key with a different body
keeps the old `msg_id`, which differs from the content-derived identifier of
the new field values. -/
theorem C9_msg_id_frame_witness :
    (exDbM.messages.getD 0 dummyRow).msg_id ≠ h256_to_bytes (msgIdOf (mkMsg 5 [9, 9])) ∧
    (∃ db1 c1,
      store_dispatched_messages exDbM 20 7 5 [⟨mkMsg 5 [9, 9], 777⟩] = some (db1, c1) ∧
      ∃ r' ∈ db1.messages, r'.id = (exDbM.messages.getD 0 dummyRow).id ∧
        r'.msg_id = (exDbM.messages.getD 0 dummyRow).msg_id ∧
        r'.destination = toI32 9 ∧
        r'.sender = address_to_bytes 11 ∧
        r'.recipient = address_to_bytes 13 ∧
        r'.msg_body = bodyOpt [9, 9] ∧
        r'.origin_tx_id = 777 ∧ r'.timeCreated = 20) :=
  ⟨by decide,
   C9_msg_id_frame exDbM 20 7 5 ⟨mkMsg 5 [9, 9], 777⟩ (exDbM.messages.getD 0 dummyRow)
     (by decide) (by decide)⟩
